import Mathlib

/-! Host-translating reverse proxy: request and response rewriting.

A shallow embedding of `main.go`: the request director `modifyBackendRequest`,
the response rewriter `modifyBackendResponse`, and the helpers `mapHeaderVals`,
`hasAnyPrefix` and `stripPort`, together with the parts of the Go standard
library they call (`strings.Replace`, `bytes.Replace`, `strings.Split`,
`strings.HasPrefix`, `http.Header`).

Go strings and byte slices are both sequences of bytes, so both are lists of
bytes here.  In-place mutation of `*http.Request` and `*http.Response` is
explicit state passing: each function returns the mutated record.
-/

namespace HostProxy

/-! ## Bytes and strings -/

abbrev Byte := UInt8

/-- A Go `string` or `[]byte`: a finite sequence of bytes. -/
abbrev Str := List Byte

/-- UTF-8 encoding of one code point, as the Go compiler stores it in a string constant. -/
def encodeRune (n : Nat) : Str :=
  if n < 0x80 then [UInt8.ofNat n]
  else if n < 0x800 then [UInt8.ofNat (0xC0 + n / 64), UInt8.ofNat (0x80 + n % 64)]
  else if n < 0x10000 then
    [UInt8.ofNat (0xE0 + n / 4096), UInt8.ofNat (0x80 + n / 64 % 64), UInt8.ofNat (0x80 + n % 64)]
  else
    [UInt8.ofNat (0xF0 + n / 262144), UInt8.ofNat (0x80 + n / 4096 % 64),
     UInt8.ofNat (0x80 + n / 64 % 64), UInt8.ofNat (0x80 + n % 64)]

/-- The bytes of a string constant. -/
def str (s : String) : Str :=
  s.toList.flatMap (fun c => encodeRune c.toNat)

/-- A Go `error` value, identified by its message. -/
abbrev Error := String

/-! ## Standard library: `unicode/utf8` -/

/-- Is `b` a UTF-8 continuation byte in the range `lo..hi`? -/
def inRange (lo hi : Nat) (b : Byte) : Bool :=
  decide (lo ≤ b.toNat) && decide (b.toNat ≤ hi)

/-- Size and accepted range of the second byte for a UTF-8 leading byte
(`first` and `acceptRanges` in `unicode/utf8`); `none` for ASCII and for bytes
that cannot start a multi-byte sequence. -/
def leadInfo (b : Byte) : Option (Nat × Nat × Nat) :=
  let n := b.toNat
  if n < 0xC2 then none
  else if n ≤ 0xDF then some (2, 0x80, 0xBF)
  else if n = 0xE0 then some (3, 0xA0, 0xBF)
  else if n = 0xED then some (3, 0x80, 0x9F)
  else if n ≤ 0xEF then some (3, 0x80, 0xBF)
  else if n = 0xF0 then some (4, 0x90, 0xBF)
  else if n ≤ 0xF3 then some (4, 0x80, 0xBF)
  else if n = 0xF4 then some (4, 0x80, 0x8F)
  else none

/-- Width returned by `utf8.DecodeRuneInString` / `utf8.DecodeRune`: the number
of bytes of the first rune, `1` for an invalid or short encoding, `0` for the
empty input. -/
def runeWidth : Str → Nat
  | [] => 0
  | s0 :: rest =>
    match leadInfo s0 with
    | none => 1
    | some (sz, lo, hi) =>
      if rest.length + 1 < sz then 1
      else
        match rest with
        | [] => 1
        | s1 :: rest1 =>
          if !inRange lo hi s1 then 1
          else if sz ≤ 2 then 2
          else
            match rest1 with
            | [] => 1
            | s2 :: rest2 =>
              if !inRange 0x80 0xBF s2 then 1
              else if sz ≤ 3 then 3
              else
                match rest2 with
                | [] => 1
                | s3 :: _ => if !inRange 0x80 0xBF s3 then 1 else 4

/-- Loop of `utf8.RuneCountInString`: one step per rune, `fuel` bounds the
number of steps (every step consumes at least one byte). -/
def runeCountLoop : Nat → Str → Nat → Nat
  | 0, _, n => n
  | fuel + 1, s, n =>
    if s.length = 0 then n else runeCountLoop fuel (s.drop (runeWidth s)) (n + 1)

/-- Go `utf8.RuneCountInString` / `utf8.RuneCount`. -/
def RuneCountInString (s : Str) : Nat :=
  runeCountLoop s.length s 0

/-! ## Standard library: `strings` and `bytes` -/

/-- Go `strings.HasPrefix`: `len(s) >= len(prefix) && s[:len(prefix)] == prefix`. -/
def HasPrefix (s pre : Str) : Bool :=
  decide (pre.length ≤ s.length) && decide (s.take pre.length = pre)

/-- Go `strings.Index` / `bytes.Index`: the index of the first instance of
`substr` in `s`, or `-1` if there is none. -/
def Index : Str → Str → Int
  | [], substr => if substr.length = 0 then 0 else -1
  | c :: t, substr =>
    if HasPrefix (c :: t) substr then 0
    else
      let r := Index t substr
      if r < 0 then -1 else r + 1

/-- Loop of `strings.Count` for a non-empty `substr`:
`i := Index(s, substr); if i == -1 { return n }; n++; s = s[i+len(substr):]`. -/
def countLoop : Nat → Str → Str → Nat → Nat
  | 0, _, _, n => n
  | fuel + 1, s, substr, n =>
    let i := Index s substr
    if i = -1 then n
    else countLoop fuel (s.drop (i.toNat + substr.length)) substr (n + 1)

/-- Go `strings.Count` / `bytes.Count`: the number of non-overlapping instances
of `substr` in `s`; for an empty `substr`, one more than the number of runes. -/
def Count (s substr : Str) : Nat :=
  if substr.length = 0 then RuneCountInString s + 1
  else countLoop (s.length + 1) s substr 0

/-- The `for i := 0; i < n; i++` loop of `strings.Replace` and `bytes.Replace`,
followed by the final `b.WriteString(s[start:])`.  `k` is the number of
iterations left, `i` the loop counter, `start` the read position and `b` the
output built so far. -/
def replaceLoop (s old new : Str) : Nat → Nat → Nat → Str → Str
  | 0, _, start, b => b ++ s.drop start
  | k + 1, i, start, b =>
    let j :=
      if old.length = 0 then
        (if i > 0 then start + runeWidth (s.drop start) else start)
      else start + (Index (s.drop start) old).toNat
    replaceLoop s old new k (i + 1) (j + old.length)
      (b ++ (s.drop start).take (j - start) ++ new)

/-- Go `strings.Replace(s, old, new, n)`. -/
def Replace (s old new : Str) (n : Int) : Str :=
  if old = new ∨ n = 0 then s
  else
    let m := Count s old
    if m = 0 then s
    else
      let n := if n < 0 ∨ (m : Int) < n then m else n.toNat
      replaceLoop s old new n 0 0 []

/-- Go `bytes.Replace(s, old, new, n)`. -/
def bytesReplace (s old new : Str) (n : Int) : Str :=
  let m := if n ≠ 0 then Count s old else 0
  if m = 0 then s
  else
    let n := if n < 0 ∨ (m : Int) < n then m else n.toNat
    replaceLoop s old new n 0 0 []

/-- Loop of `strings.genSplit` for a non-empty separator, `k` iterations left:
`m := Index(s, sep); if m < 0 { break }; a[i] = s[:m]; s = s[m+len(sep):]`,
and after the loop `a[i] = s`. -/
def genSplitLoop : Nat → Str → Str → List Str
  | 0, s, _ => [s]
  | k + 1, s, sep =>
    let m := Index s sep
    if m < 0 then [s]
    else s.take m.toNat :: genSplitLoop k (s.drop (m.toNat + sep.length)) sep

/-- Go `strings.Split(s, sep)` for a non-empty separator: `genSplit(s, sep, 0, -1)`
with `n = Count(s, sep) + 1`, capped at `len(s) + 1`.  The program only splits
on the constant `":"`; the `explode` branch taken for an empty separator is not
modelled and the whole string is returned as the single piece there. -/
def Split (s sep : Str) : List Str :=
  if sep.length = 0 then [s]
  else genSplitLoop (min (Count s sep + 1) (s.length + 1) - 1) s sep

/-! ## Standard library: `net/http` headers, bodies, requests, responses -/

/-- Go `http.Header`, a `map[string][]string`, as an association list read by
first match.  An absent key and a key holding an empty slice are different
states of the map. -/
abbrev Header := List (Str × List Str)

/-- Map lookup with presence: `v, ok := h[key]`; `none` when the key is absent. -/
def Header.find : Header → Str → Option (List Str)
  | [], _ => none
  | (k, v) :: t, key => if k = key then some v else Header.find t key

/-- Map indexing `h[key]`: the stored slice, or the nil slice when absent. -/
def Header.index (h : Header) (key : Str) : List Str :=
  (h.find key).getD []

/-- Map deletion `delete(h, key)`. -/
def Header.delete (h : Header) (key : Str) : Header :=
  h.filter (fun e => decide (e.1 ≠ key))

/-- Map assignment `h[key] = vals`. -/
def Header.assign (h : Header) (key : Str) (vals : List Str) : Header :=
  (key, vals) :: h.delete key

/-- Go `Header.Get(key)` for a key already in canonical MIME form (every key
the program passes is such a constant): the first value, or `""`. -/
def Header.Get (h : Header) (key : Str) : Str :=
  match h.index key with
  | [] => []
  | v :: _ => v

/-- Go `Header.Set(key, value)` for a key already in canonical MIME form. -/
def Header.Set (h : Header) (key : Str) (value : Str) : Header :=
  h.assign key [value]

/-- Go `Header.Del(key)` for a key already in canonical MIME form. -/
def Header.Del (h : Header) (key : Str) : Header :=
  h.delete key

/-- An `io.Reader` seen from its consumer: the bytes it yields, then either
end of stream (`none`) or a read error. -/
structure Stream where
  content : Str
  failure : Option Error
deriving DecidableEq, Repr

/-- An `io.ReadCloser` response body: a stream, and whether `Close` was called. -/
structure Body where
  content : Str
  failure : Option Error
  closed : Bool
deriving DecidableEq, Repr

/-- The body used as an `io.Reader`. -/
def Body.reader (b : Body) : Stream :=
  ⟨b.content, b.failure⟩

/-- Effect of `Close` on a network body. -/
def Body.Close (b : Body) : Body :=
  { b with closed := true }

/-- Go `ioutil.ReadAll`: all bytes up to end of stream, and the read error if any. -/
def ReadAll (r : Stream) : Str × Option Error :=
  (r.content, r.failure)

/-- The fields of `url.URL` the program touches, and path and query. -/
structure URL where
  Scheme : Str
  Host : Str
  Path : Str
  RawQuery : Str
deriving DecidableEq, Repr

/-- The fields of `http.Request` the program can observe. -/
structure Request where
  Method : Str
  URL : URL
  Header : Header
  Host : Str
deriving DecidableEq, Repr

/-- The fields of `http.Response` the program can observe. -/
structure Response where
  StatusCode : Nat
  Header : Header
  Body : Body
  Request : Request
deriving DecidableEq, Repr

/-! ## The program -/

/-- Type `proxy` of `main.go`. -/
structure proxy where
  backendURL : URL
deriving DecidableEq, Repr

/-- Type `closingBuffer` built by `newClosingBuffer`: an in-memory buffer whose
`Close` does nothing. -/
def newClosingBuffer (buf : Str) : Body :=
  { content := buf, failure := none, closed := false }

/-- Function `hasAnyPrefix` of `main.go`. -/
def hasAnyPrefix (s : Str) : List Str → Bool
  | [] => false
  | p :: prefixes => if HasPrefix s p then true else hasAnyPrefix s prefixes

/-- Function `mapHeaderVals` of `main.go`. -/
def mapHeaderVals (header : Header) (field : Str) (update : Str → Str) : Header :=
  let h := header.index field
  if h.length > 0 then header.assign field (h.map update) else header

/-- Function `stripPort` of `main.go`: `strings.Split(s, ":")[0]`.  The index
expression is read with a default; `Split` never returns an empty slice. -/
def stripPort (s : Str) : Str :=
  ((Split s (str ":"))[0]?).getD []

/-- Method `modifyBackendRequest` of `main.go`.  The `Referer` closure reads
`req.Host` when it runs, that is after the assignment `req.Host = p.backendURL.Host`. -/
def modifyBackendRequest (p : proxy) (req : Request) : Request :=
  let req := { req with URL := { req.URL with Scheme := p.backendURL.Scheme } }
  let req := { req with URL := { req.URL with Host := p.backendURL.Host } }
  let req := { req with Host := p.backendURL.Host }
  let req :=
    if (req.Header.find (str "User-Agent")).isSome then req
    else { req with Header := req.Header.Set (str "User-Agent") (str "") }
  { req with
    Header := mapHeaderVals req.Header (str "Referer") (fun s =>
      Replace s (stripPort req.Host) (stripPort p.backendURL.Host) (-1)) }

/-- The list `mimePrefixes` of `modifyBackendResponse`. -/
def mimePrefixes : List Str :=
  [str "text/html", str "text/css", str "application/javascript", str "application/json"]

/-- The local `contentType` of `modifyBackendResponse`. -/
def contentTypeOf (h : Header) : Str :=
  match h.index (str "Content-Type") with
  | [] => []
  | v :: _ => v

/-- Method `modifyBackendResponse` of `main.go`: the mutated response and the
returned error (`none` for `nil`).  `gzipNewReader` stands for `gzip.NewReader`:
it fails, or gives the reader of the decompressed stream.  The deferred `Close`
is on the original body. -/
def modifyBackendResponse (gzipNewReader : Stream → Except Error Stream)
    (p : proxy) (resp : Response) : Response × Option Error :=
  let backendHost := stripPort p.backendURL.Host
  let reqHost := stripPort resp.Request.Host
  let resp := { resp with
    Header := mapHeaderVals resp.Header (str "Location") (fun s =>
      Replace s backendHost reqHost (-1)) }
  let resp := { resp with
    Header := mapHeaderVals resp.Header (str "Set-Cookie") (fun s =>
      Replace s backendHost reqHost (-1)) }
  let contentType := contentTypeOf resp.Header
  if hasAnyPrefix contentType mimePrefixes then
    let contentReader := resp.Body.reader
    let opened :=
      if resp.Header.Get (str "Content-Encoding") = str "gzip" then gzipNewReader contentReader
      else Except.ok contentReader
    match opened with
    | Except.error err => ({ resp with Body := resp.Body.Close }, some err)
    | Except.ok contentReader =>
      match ReadAll contentReader with
      | (_, some err) => ({ resp with Body := resp.Body.Close }, some err)
      | (content, none) =>
        let resp := { resp with Body := newClosingBuffer (bytesReplace content backendHost reqHost (-1)) }
        let resp := { resp with Header := resp.Header.Del (str "Content-Length") }
        let resp := { resp with Header := resp.Header.Del (str "Content-Encoding") }
        (resp, none)
  else (resp, none)

/-! ## Specification-level replacement -/

/-- Left-to-right scan for a non-empty pattern: `skip` bytes of an occurrence
already replaced are still to be dropped; otherwise an occurrence of `old`
starting here is replaced by `new`, and any other byte is copied. -/
def replaceScan (old new : Str) : Nat → Str → Str
  | _, [] => []
  | skip + 1, _ :: t => replaceScan old new skip t
  | 0, c :: t =>
    if HasPrefix (c :: t) old then new ++ replaceScan old new (old.length - 1) t
    else c :: replaceScan old new 0 t

/-- Copy of the text with `new` written after every rune; `k` bytes of the
current rune are still to be copied (`0` at a rune boundary). -/
def insertScan (new : Str) : Nat → Str → Str
  | _, [] => []
  | k, c :: t =>
    let k1 := (if k = 0 then runeWidth (c :: t) else k) - 1
    if k1 = 0 then c :: (new ++ insertScan new 0 t) else c :: insertScan new k1 t

/-- The text `s` with all non-overlapping occurrences of `old`, taken from the
left, replaced by `new`.  The empty pattern occurs once before every rune and
once at the end. -/
def replaceAll (old new s : Str) : Str :=
  if old = [] then new ++ insertScan new 0 s else replaceScan old new 0 s

/-- The response a backend reply becomes when it travels through the reverse
proxy built by `handler`: the director has mutated the outgoing request, and
the reply's `Request` field is that request. -/
def pipelineResponse (p : proxy) (req : Request) (reply : Response) : Response :=
  { reply with Request := modifyBackendRequest p req }

/-- The header map of `modifyBackendResponse` once its two `mapHeaderVals`
calls, on `Location` and on `Set-Cookie`, have run. -/
def rewrittenHeader (p : proxy) (resp : Response) : Header :=
  mapHeaderVals
    (mapHeaderVals resp.Header (str "Location") (fun s =>
      Replace s (stripPort p.backendURL.Host) (stripPort resp.Request.Host) (-1)))
    (str "Set-Cookie") (fun s =>
      Replace s (stripPort p.backendURL.Host) (stripPort resp.Request.Host) (-1))

/-- The reader `modifyBackendResponse` takes the content from: the gzip reader
over the body when `Content-Encoding` is `gzip`, the body itself otherwise. -/
def contentReaderOf (gzipNewReader : Stream → Except Error Stream) (h : Header)
    (body : Body) : Except Error Stream :=
  if h.Get (str "Content-Encoding") = str "gzip" then gzipNewReader body.reader
  else Except.ok body.reader

/-! ## Concrete inputs -/

/-- The Backend Target `http://svc-internal:8080`. -/
def svcProxy : proxy :=
  ⟨{ Scheme := str "http", Host := str "svc-internal:8080", Path := str "", RawQuery := str "" }⟩

/-- A client request to `public.example.com` carrying
`Referer: http://public.example.com/page`. -/
def clientRequest : Request :=
  { Method := str "GET"
    URL := { Scheme := str "", Host := str "", Path := str "/login", RawQuery := str "" }
    Header := [(str "Referer", [str "http://public.example.com/page"])]
    Host := str "public.example.com" }

/-- A 302 reply of the backend with `Location: http://svc-internal:8080/login`,
whose `Request` field is left to be filled in. -/
def redirectReply (req : Request) : Response :=
  { StatusCode := 302
    Header := [(str "Location", [str "http://svc-internal:8080/login"])]
    Body := { content := [], failure := none, closed := false }
    Request := req }

/-- A reply with `Set-Cookie: session=abc; Domain=svc-internal` to a request
for `public.example.com`. -/
def cookieReply : Response :=
  { StatusCode := 200
    Header := [(str "Set-Cookie", [str "session=abc; Domain=svc-internal"])]
    Body := { content := [], failure := none, closed := false }
    Request := clientRequest }

/-- The Backend Target `http://app.internal:9000`. -/
def appProxy : proxy :=
  ⟨{ Scheme := str "http", Host := str "app.internal:9000", Path := str "", RawQuery := str "" }⟩

/-- A client request to `shop.example.org:3000` whose Referer names that host
with its port. -/
def shopRequest : Request :=
  { Method := str "POST"
    URL := { Scheme := str "", Host := str "", Path := str "/cart", RawQuery := str "id=7" }
    Header := [(str "User-Agent", [str "curl/8.0"]),
               (str "Referer", [str "https://shop.example.org:3000/cart"])]
    Host := str "shop.example.org:3000" }

/-- The Backend Target `http://backend.internal:8080`. -/
def internalProxy : proxy :=
  ⟨{ Scheme := str "http", Host := str "backend.internal:8080", Path := str "",
     RawQuery := str "" }⟩

/-- An HTML reply with `Content-Type: text/html; charset=utf-8`, a
`Content-Length`, and a body that names `backend.internal`. -/
def htmlReply : Response :=
  { StatusCode := 200
    Header := [(str "Content-Type", [str "text/html; charset=utf-8"]),
               (str "Content-Length", [str "40"])]
    Body := { content := str "<a href=\"http://backend.internal/x\">x</a>", failure := none,
              closed := false }
    Request := clientRequest }

/-- An image reply with `Content-Type: image/png` whose payload holds the same
bytes as the text `backend.internal`. -/
def pngReply : Response :=
  { StatusCode := 200
    Header := [(str "Content-Type", [str "image/png"]),
               (str "Content-Length", [str "20"])]
    Body := { content := str "PNG backend.internal", failure := none, closed := false }
    Request := clientRequest }

/-- An HTML reply whose body stream breaks after some bytes. -/
def brokenReply : Response :=
  { StatusCode := 200
    Header := [(str "Content-Type", [str "text/html"])]
    Body := { content := str "<p>backend.in", failure := some "unexpected EOF",
              closed := false }
    Request := clientRequest }

/-- The JSON text of an object whose field `url` is `http://backend.internal/api`. -/
def plainJson : Str :=
  str "\x7b\"url\":\"http://backend.internal/api\"\x7d"

/-- The gzip stream of `plainJson` (deflate, no file name, modification time 0). -/
def gzippedJson : Str :=
  [31, 139, 8, 0, 0, 0, 0, 0, 2, 3, 171, 86, 42, 45, 202, 81, 178, 82, 202, 40, 41, 41, 176,
   210, 215, 79, 74, 76, 206, 78, 205, 75, 209, 203, 204, 43, 73, 45, 202, 75, 204, 209, 79,
   44, 200, 84, 170, 5, 0, 158, 51, 196, 167, 37, 0, 0, 0]

/-- A finite fragment of `gzip.NewReader`, used where a theorem is applied to a
concrete response: it decodes the one stream `gzippedJson` and rejects every
other input as not being gzip. -/
def sampleGzip (r : Stream) : Except Error Stream :=
  if r = ⟨gzippedJson, none⟩ then Except.ok ⟨plainJson, none⟩
  else Except.error "gzip: invalid header"

/-- A gzip-encoded `application/json` reply. -/
def gzipReply : Response :=
  { StatusCode := 200
    Header := [(str "Content-Type", [str "application/json"]),
               (str "Content-Encoding", [str "gzip"]),
               (str "Content-Length", [str "57"])]
    Body := { content := gzippedJson, failure := none, closed := false }
    Request := clientRequest }

/-- The Backend Target `http://internal`, whose host is part of the public
host `internal.example.com`. -/
def nestedProxy : proxy :=
  ⟨{ Scheme := str "http", Host := str "internal", Path := str "", RawQuery := str "" }⟩

/-- A redirect from the backend `internal` in reply to a request for
`internal.example.com`. -/
def nestedReply : Response :=
  { StatusCode := 302
    Header := [(str "Location", [str "http://internal/login"])]
    Body := { content := [], failure := none, closed := false }
    Request := { clientRequest with Host := str "internal.example.com" } }

/-- The Backend Target `http://backend:8080`. -/
def disjointProxy : proxy :=
  ⟨{ Scheme := str "http", Host := str "backend:8080", Path := str "", RawQuery := str "" }⟩

/-- A redirect from `backend:8080` in reply to a request for `www.shop.io`, a
host sharing no byte with `backend`. -/
def disjointReply : Response :=
  { StatusCode := 302
    Header := [(str "Location", [str "http://backend:8080/login"]),
               (str "Set-Cookie", [str "id=1; Domain=backend", str "t=2; Domain=backend"])]
    Body := { content := [], failure := none, closed := false }
    Request := { clientRequest with Host := str "www.shop.io" } }

/-- ASCII lower-casing of one byte. -/
def lowerByte (b : Byte) : Byte :=
  if 65 ≤ b.toNat ∧ b.toNat ≤ 90 then UInt8.ofNat (b.toNat + 32) else b

/-- Equality of two field names up to the case of ASCII letters. -/
def equalFold (a b : Str) : Bool :=
  decide (a.map lowerByte = b.map lowerByte)

/-- A header map that stores a redirect target under the key `location`,
written in lower case. -/
def lowerKeyHeader : Header :=
  [(str "location", [str "http://svc-internal:8080/login"])]

/-- A request without `User-Agent`, with two `Referer` values and one other
field. -/
def bareRequest : Request :=
  { Method := str "PUT"
    URL := { Scheme := str "https", Host := str "public.example.com", Path := str "/a/b",
             RawQuery := str "q=1" }
    Header := [(str "Referer", [str "http://public.example.com/one",
                                str "http://svc-internal/two"]),
               (str "Accept", [str "text/html", str "*/*"])]
    Host := str "public.example.com" }

/-- An HTML reply with `Content-Encoding: br`: the body bytes are the encoded
payload, here one that happens to hold the bytes of `backend.internal`. -/
def brotliReply : Response :=
  { StatusCode := 200
    Header := [(str "Content-Type", [str "text/html"]),
               (str "Content-Encoding", [str "br"]),
               (str "Content-Length", [str "21"]),
               (str "X-Served-By", [str "backend.internal"])]
    Body := { content := str "\x1b\x00 backend.internal \x03", failure := none, closed := false }
    Request := clientRequest }

/-! ## Lemmas on the string library -/

theorem hasPrefix_iff (s pre : Str) : HasPrefix s pre = true ↔ pre <+: s := by
  unfold HasPrefix
  simp only [Bool.and_eq_true, decide_eq_true_eq]
  constructor
  · rintro ⟨_, h⟩
    rw [← h]
    exact List.take_prefix _ _
  · intro h
    refine ⟨h.length_le, ?_⟩
    exact (List.prefix_iff_eq_take.mp h).symm

theorem index_ge (s old : Str) : -1 ≤ Index s old := by
  induction s with
  | nil => unfold Index; split <;> omega
  | cons c t ih =>
    unfold Index
    split
    · omega
    · simp only []
      split <;> omega

theorem index_nil_left (old : Str) (h : old ≠ []) : Index [] old = -1 := by
  unfold Index
  have : old.length ≠ 0 := by simpa using h
  simp [this]

theorem replaceScan_skip (old new : Str) (k : Nat) (s : Str) :
    replaceScan old new k s = replaceScan old new 0 (s.drop k) := by
  induction s generalizing k with
  | nil => cases k <;> simp [replaceScan]
  | cons c t ih =>
    cases k with
    | zero => simp
    | succ k => simp only [replaceScan, List.drop_succ_cons]; exact ih k

theorem index_cons_of_hasPrefix (c : Byte) (t old : Str) (h : HasPrefix (c :: t) old = true) :
    Index (c :: t) old = 0 := by
  simp [Index, h]

theorem index_cons_of_not (c : Byte) (t old : Str) (h : HasPrefix (c :: t) old = false) :
    Index (c :: t) old = if Index t old < 0 then -1 else Index t old + 1 := by
  simp [Index, h]

/-- Where `Index` finds nothing, the scan copies the text. -/
theorem replaceScan_of_index_neg (old new : Str) (s : Str)
    (h : Index s old < 0) : replaceScan old new 0 s = s := by
  induction s with
  | nil => simp [replaceScan]
  | cons c t ih =>
    cases hp : HasPrefix (c :: t) old with
    | true => rw [index_cons_of_hasPrefix c t old hp] at h; omega
    | false =>
      rw [index_cons_of_not c t old hp] at h
      have ht : Index t old < 0 := by
        by_contra hn
        rw [if_neg hn] at h
        omega
      simp [replaceScan, hp, ih ht]

/-- Where `Index` finds the first occurrence at `i`, the scan copies the `i`
bytes before it, writes `new`, and goes on behind the occurrence. -/
theorem replaceScan_of_index (old new : Str) (hold : old ≠ []) (s : Str)
    (h : 0 ≤ Index s old) :
    replaceScan old new 0 s =
      s.take (Index s old).toNat ++ new ++
        replaceScan old new 0 (s.drop ((Index s old).toNat + old.length)) := by
  have hlen : 1 ≤ old.length := List.length_pos.mpr hold
  induction s with
  | nil => rw [index_nil_left old hold] at h; omega
  | cons c t ih =>
    cases hp : HasPrefix (c :: t) old with
    | true =>
      rw [index_cons_of_hasPrefix c t old hp]
      simp only [replaceScan, hp, if_true, Int.toNat_zero, List.take_zero, List.nil_append,
        Nat.zero_add]
      rw [replaceScan_skip old new (old.length - 1) t]
      obtain ⟨n, hn⟩ : ∃ n, old.length = n + 1 := ⟨old.length - 1, by omega⟩
      simp [hn]
    | false =>
      rw [index_cons_of_not c t old hp] at h ⊢
      have ht : 0 ≤ Index t old := by
        by_contra hn
        have : Index t old < 0 := by omega
        rw [if_pos this] at h
        omega
      have hnot : ¬ Index t old < 0 := by omega
      rw [if_neg hnot]
      have e1 : (Index t old + 1).toNat = (Index t old).toNat + 1 := by omega
      rw [e1]
      have e2 : (Index t old).toNat + 1 + old.length = ((Index t old).toNat + old.length) + 1 := by
        omega
      rw [e2]
      simp only [replaceScan, hp, List.take_succ_cons, List.drop_succ_cons, List.cons_append]
      rw [ih ht]
      simp

theorem countLoop_acc (fuel : Nat) (s old : Str) (n : Nat) :
    countLoop fuel s old n = n + countLoop fuel s old 0 := by
  induction fuel generalizing s n with
  | zero => simp [countLoop]
  | succ fuel ih =>
    simp only [countLoop]
    split
    · simp
    · rw [ih _ (n + 1), ih _ (0 + 1)]; omega

/-- The replace loop, run for as many iterations as `Count` finds occurrences
behind `start`, appends the scan of the text behind `start`. -/
theorem replaceLoop_countLoop (s old new : Str) (hold : old ≠ []) (fuel : Nat) :
    ∀ (i start : Nat) (b : Str), (s.drop start).length < fuel →
      replaceLoop s old new (countLoop fuel (s.drop start) old 0) i start b =
        b ++ replaceScan old new 0 (s.drop start) := by
  have hlen : 1 ≤ old.length := List.length_pos.mpr hold
  have hlen0 : old.length ≠ 0 := by omega
  induction fuel with
  | zero => intro i start b h; omega
  | succ fuel ih =>
    intro i start b h
    have hge := index_ge (s.drop start) old
    by_cases hi : Index (s.drop start) old = -1
    · simp only [countLoop, hi, if_true, replaceLoop]
      rw [replaceScan_of_index_neg old new _ (by omega)]
    · have h0 : 0 ≤ Index (s.drop start) old := by omega
      simp only [countLoop, hi, if_false]
      rw [countLoop_acc, Nat.add_comm]
      simp only [replaceLoop, hlen0, if_false]
      have hne : s.drop start ≠ [] := by
        intro he
        rw [he, index_nil_left old hold] at h0
        omega
      have hpos : 1 ≤ (s.drop start).length := List.length_pos.mpr hne
      have hdrop : s.drop (start + (Index (s.drop start) old).toNat + old.length) =
          (s.drop start).drop ((Index (s.drop start) old).toNat + old.length) := by
        rw [List.drop_drop]
        congr 1
        omega
      rw [← hdrop]
      rw [ih (i + 1) (start + (Index (s.drop start) old).toNat + old.length) _ ?_]
      · rw [replaceScan_of_index old new hold (s.drop start) h0, hdrop]
        simp
      · rw [hdrop, List.length_drop]
        omega

theorem runeWidth_pos (c : Byte) (t : Str) : 1 ≤ runeWidth (c :: t) := by
  unfold runeWidth
  repeat' split
  all_goals first | omega | simp_all

theorem runeWidth_le (s : Str) : runeWidth s ≤ s.length := by
  unfold runeWidth
  repeat' split
  all_goals simp only [List.length_cons, List.length_nil]
  all_goals omega

theorem insertScan_nil (k : Nat) (s : Str) : insertScan [] k s = s := by
  induction s generalizing k with
  | nil => simp [insertScan]
  | cons c t ih =>
    simp only [insertScan, List.nil_append]
    split <;> simp [ih]

theorem insertScan_pos (new : Str) (s : Str) :
    ∀ k, 1 ≤ k → k ≤ s.length →
      insertScan new k s = s.take k ++ new ++ insertScan new 0 (s.drop k) := by
  induction s with
  | nil => intro k h1 h2; simp at h2; omega
  | cons c t ih =>
    intro k h1 h2
    obtain ⟨m, rfl⟩ : ∃ m, k = m + 1 := ⟨k - 1, by omega⟩
    have hk : (if m + 1 = 0 then runeWidth (c :: t) else m + 1) - 1 = m := by simp
    simp only [insertScan, hk, List.take_succ_cons, List.drop_succ_cons, List.cons_append]
    by_cases hm : m = 0
    · subst hm; simp
    · rw [if_neg hm, ih m (by omega) (by simpa using h2)]

theorem insertScan_zero (new : Str) (c : Byte) (t : Str) :
    insertScan new 0 (c :: t) =
      (c :: t).take (runeWidth (c :: t)) ++ new ++
        insertScan new 0 ((c :: t).drop (runeWidth (c :: t))) := by
  have hw := runeWidth_pos c t
  have e : insertScan new 0 (c :: t) = insertScan new (runeWidth (c :: t)) (c :: t) := by
    have hne : runeWidth (c :: t) ≠ 0 := by omega
    simp only [insertScan, if_true, if_neg hne]
  rw [e]
  exact insertScan_pos new (c :: t) _ hw (runeWidth_le _)

theorem runeCountLoop_acc (fuel : Nat) (s : Str) (n : Nat) :
    runeCountLoop fuel s n = n + runeCountLoop fuel s 0 := by
  induction fuel generalizing s n with
  | zero => simp [runeCountLoop]
  | succ fuel ih =>
    simp only [runeCountLoop]
    split
    · simp
    · rw [ih _ (n + 1), ih _ (0 + 1)]; omega

/-- For the empty pattern the replace loop, after its first iteration, copies
one rune per iteration and writes `new` behind it. -/
theorem replaceLoop_runeCountLoop (s new : Str) (fuel : Nat) :
    ∀ (i start : Nat) (b : Str), 0 < i → (s.drop start).length ≤ fuel →
      replaceLoop s [] new (runeCountLoop fuel (s.drop start) 0) i start b =
        b ++ insertScan new 0 (s.drop start) := by
  induction fuel with
  | zero =>
    intro i start b _ h
    have he : s.drop start = [] := List.length_eq_zero.mp (by omega)
    simp [runeCountLoop, replaceLoop, he, insertScan]
  | succ fuel ih =>
    intro i start b hi h
    cases hd : s.drop start with
    | nil => simp [runeCountLoop, replaceLoop, hd, insertScan]
    | cons c t =>
      have hw := runeWidth_pos c t
      have hwl := runeWidth_le (c :: t)
      have hdrop : s.drop (start + runeWidth (c :: t)) = (c :: t).drop (runeWidth (c :: t)) := by
        rw [← hd, List.drop_drop]
      simp only [runeCountLoop, List.length_cons, Nat.succ_ne_zero, if_false]
      rw [runeCountLoop_acc, Nat.add_comm]
      simp only [replaceLoop, List.length_nil, if_true, if_pos hi, hd, Nat.add_zero,
        Nat.add_sub_cancel_left]
      rw [← hdrop, ih (i + 1) (start + runeWidth (c :: t)) _ (by omega) ?_]
      · rw [insertScan_zero, hdrop]
        simp
      · rw [hdrop, List.length_drop]
        rw [hd] at h
        simp only [List.length_cons] at h hwl ⊢
        omega

theorem replaceLoop_empty (s new : Str) :
    replaceLoop s [] new (Count s []) 0 0 [] = new ++ insertScan new 0 s := by
  have h := replaceLoop_runeCountLoop s new s.length 1 0 new (by omega) (by simp)
  simp only [List.drop_zero] at h
  simp only [Count, List.length_nil, if_true, RuneCountInString, replaceLoop, Nat.lt_irrefl,
    if_false, List.drop_zero, Nat.sub_self, List.take_zero, List.append_nil, List.nil_append,
    Nat.add_zero, Nat.zero_add]
  exact h

theorem replaceLoop_nonempty (s old new : Str) (hold : old ≠ []) :
    replaceLoop s old new (Count s old) 0 0 [] = replaceScan old new 0 s := by
  have hlen0 : old.length ≠ 0 := by simpa using hold
  have h := replaceLoop_countLoop s old new hold (s.length + 1) 0 0 [] (by simp)
  simp only [List.drop_zero, List.nil_append] at h
  simp only [Count, if_neg hlen0]
  exact h

theorem replaceLoop_zero (s old new : Str) : replaceLoop s old new 0 0 0 [] = s := by
  simp [replaceLoop]

/-- The replace loop run `Count s old` times computes `replaceAll`. -/
theorem replaceLoop_count (s old new : Str) :
    replaceLoop s old new (Count s old) 0 0 [] = replaceAll old new s := by
  unfold replaceAll
  by_cases hold : old = []
  · subst hold
    simp only [if_true]
    exact replaceLoop_empty s new
  · rw [if_neg hold]
    exact replaceLoop_nonempty s old new hold

theorem replaceScan_self (old : Str) (hold : old ≠ []) (s : Str) :
    ∀ k, replaceScan old old k s = s.drop k := by
  induction s with
  | nil => intro k; cases k <;> simp [replaceScan]
  | cons c t ih =>
    intro k
    cases k with
    | succ k => simp only [replaceScan, List.drop_succ_cons]; exact ih k
    | zero =>
      simp only [replaceScan, List.drop_zero]
      cases hp : HasPrefix (c :: t) old with
      | false => simp [ih 0]
      | true =>
        simp only [if_true]
        rw [ih]
        have hpre := (hasPrefix_iff _ _).mp hp
        cases old with
        | nil => exact absurd rfl hold
        | cons o old1 =>
          obtain ⟨r, hr⟩ := hpre
          simp only [List.cons_append, List.cons.injEq] at hr
          obtain ⟨rfl, rfl⟩ := hr
          simp

theorem replaceAll_self (old s : Str) : replaceAll old old s = s := by
  unfold replaceAll
  by_cases hold : old = []
  · subst hold; simp [insertScan_nil]
  · rw [if_neg hold, replaceScan_self old hold]; simp

/-- Refinement: Go `strings.Replace` with `n = -1` replaces all non-overlapping
occurrences, leftmost first. -/
theorem Replace_eq_replaceAll (s old new : Str) :
    Replace s old new (-1) = replaceAll old new s := by
  unfold Replace
  by_cases h : old = new
  · subst h; simp [replaceAll_self]
  · have hn : ¬ (old = new ∨ (-1 : Int) = 0) := by simp [h]
    rw [if_neg hn]
    simp only []
    by_cases hm : Count s old = 0
    · rw [if_pos hm, ← replaceLoop_count s old new, hm, replaceLoop_zero]
    · rw [if_neg hm]
      have : ((-1 : Int) < 0 ∨ (Count s old : Int) < -1) := Or.inl (by omega)
      rw [if_pos this]
      exact replaceLoop_count s old new

/-- Refinement: Go `bytes.Replace` with `n = -1` replaces all non-overlapping
occurrences, leftmost first. -/
theorem bytesReplace_eq_replaceAll (s old new : Str) :
    bytesReplace s old new (-1) = replaceAll old new s := by
  unfold bytesReplace
  have hn : (-1 : Int) ≠ 0 := by omega
  simp only [if_pos hn]
  by_cases hm : Count s old = 0
  · rw [if_pos hm, ← replaceLoop_count s old new, hm, replaceLoop_zero]
  · rw [if_neg hm]
    have : ((-1 : Int) < 0 ∨ (Count s old : Int) < -1) := Or.inl (by omega)
    rw [if_pos this]
    exact replaceLoop_count s old new

/-! ## Occurrences left by a replacement -/

theorem not_infix_of_index_neg (old : Str) (hold : old ≠ []) (s : Str)
    (h : Index s old < 0) : ¬ old <:+: s := by
  induction s with
  | nil =>
    intro hin
    exact hold (List.eq_nil_of_infix_nil hin)
  | cons c t ih =>
    cases hp : HasPrefix (c :: t) old with
    | true => rw [index_cons_of_hasPrefix c t old hp] at h; omega
    | false =>
      rw [index_cons_of_not c t old hp] at h
      have ht : Index t old < 0 := by
        by_contra hn
        rw [if_neg hn] at h
        omega
      intro hin
      rcases List.infix_cons_iff.mp hin with hpre | hinf
      · have := (hasPrefix_iff _ _).mpr hpre
        rw [hp] at this
        exact Bool.noConfusion this
      · exact ih ht hinf

/-- Before the index found by `Index` there is no occurrence. -/
theorem not_infix_take_index (old : Str) (hold : old ≠ []) (s : Str)
    (h : 0 ≤ Index s old) : ¬ old <:+: s.take (Index s old).toNat := by
  induction s with
  | nil =>
    intro hin
    simp only [List.take_nil] at hin
    exact hold (List.eq_nil_of_infix_nil hin)
  | cons c t ih =>
    cases hp : HasPrefix (c :: t) old with
    | true =>
      rw [index_cons_of_hasPrefix c t old hp]
      intro hin
      simp only [Int.toNat_zero, List.take_zero] at hin
      exact hold (List.eq_nil_of_infix_nil hin)
    | false =>
      rw [index_cons_of_not c t old hp] at h ⊢
      have ht : 0 ≤ Index t old := by
        by_contra hn
        have : Index t old < 0 := by omega
        rw [if_pos this] at h
        omega
      have hnot : ¬ Index t old < 0 := by omega
      rw [if_neg hnot]
      have e1 : (Index t old + 1).toNat = (Index t old).toNat + 1 := by omega
      rw [e1, List.take_succ_cons]
      intro hin
      rcases List.infix_cons_iff.mp hin with hpre | hinf
      · have hpre2 : old <+: c :: t :=
          hpre.trans ((List.prefix_cons_inj c).mpr (List.take_prefix _ t))
        have := (hasPrefix_iff _ _).mpr hpre2
        rw [hp] at this
        exact Bool.noConfusion this
      · exact ih ht hinf

/-- A pattern sharing no byte with `m` does not occur across `m`. -/
theorem infix_of_infix_disjoint_append (old m r : Str) (hold : old ≠ [])
    (hdis : ∀ x ∈ old, x ∉ m) (h : old <:+: m ++ r) : old <:+: r := by
  induction m with
  | nil => simpa using h
  | cons a m ih =>
    rw [List.cons_append] at h
    rcases List.infix_cons_iff.mp h with hpre | hinf
    · exfalso
      cases old with
      | nil => exact hold rfl
      | cons o old1 =>
        obtain ⟨w, hw⟩ := hpre
        simp only [List.cons_append, List.cons.injEq] at hw
        exact hdis o (List.mem_cons_self _ _) (hw.1 ▸ List.mem_cons_self _ _)
    · exact ih (fun x hx hm => hdis x hx (List.mem_cons_of_mem _ hm)) hinf

/-- An occurrence in `p ++ new ++ r` of a pattern sharing no byte with the
non-empty `new` lies inside `p` or inside `r`. -/
theorem infix_split_of_disjoint (old new p r : Str) (hold : old ≠ []) (hnew : new ≠ [])
    (hdis : ∀ x ∈ old, x ∉ new) (h : old <:+: p ++ new ++ r) :
    old <:+: p ∨ old <:+: r := by
  induction p with
  | nil =>
    right
    exact infix_of_infix_disjoint_append old new r hold hdis (by simpa using h)
  | cons c p ih =>
    simp only [List.cons_append] at h
    rcases List.infix_cons_iff.mp h with hpre | hinf
    · have hwhole : old <+: (c :: p) ++ (new ++ r) := by simpa using hpre
      have hcp : c :: p <+: (c :: p) ++ (new ++ r) := List.prefix_append _ _
      rcases List.prefix_or_prefix_of_prefix hwhole hcp with h1 | h2
      · exact Or.inl h1.isInfix
      · obtain ⟨w, hw⟩ := h2
        cases w with
        | nil =>
          left
          rw [List.append_nil] at hw
          rw [← hw]
        | cons w0 w =>
          exfalso
          rw [← hw] at hwhole
          have hw2 : w0 :: w <+: new ++ r := (List.prefix_append_right_inj _).mp hwhole
          cases new with
          | nil => exact hnew rfl
          | cons n0 new1 =>
            obtain ⟨z, hz⟩ := hw2
            simp only [List.cons_append, List.cons.injEq] at hz
            have hmem : w0 ∈ old := by
              rw [← hw]
              exact List.mem_append_right _ (List.mem_cons_self _ _)
            exact hdis w0 hmem (hz.1 ▸ List.mem_cons_self _ _)
    · rcases ih (by simpa using hinf) with h1 | h2
      · exact Or.inl (List.infix_cons h1)
      · exact Or.inr h2

theorem not_infix_replaceScan_aux (old new : Str) (hold : old ≠ []) (hnew : new ≠ [])
    (hdis : ∀ x ∈ old, x ∉ new) :
    ∀ (n : Nat) (s : Str), s.length ≤ n → ¬ old <:+: replaceScan old new 0 s := by
  have hlen : 1 ≤ old.length := List.length_pos.mpr hold
  intro n
  induction n with
  | zero =>
    intro s hs
    have : s = [] := List.length_eq_zero.mp (by omega)
    subst this
    intro hin
    simp only [replaceScan] at hin
    exact hold (List.eq_nil_of_infix_nil hin)
  | succ n ih =>
    intro s hs
    have hge := index_ge s old
    by_cases hi : Index s old < 0
    · rw [replaceScan_of_index_neg old new s hi]
      exact not_infix_of_index_neg old hold s hi
    · have h0 : 0 ≤ Index s old := by omega
      rw [replaceScan_of_index old new hold s h0]
      intro hin
      rcases infix_split_of_disjoint old new _ _ hold hnew hdis hin with h1 | h2
      · exact not_infix_take_index old hold s h0 h1
      · refine ih _ ?_ h2
        rw [List.length_drop]
        omega

/-- After replacing all occurrences of a non-empty pattern by a non-empty text
that shares no byte with it, no occurrence is left. -/
theorem not_infix_replaceAll (old new : Str) (hold : old ≠ []) (hnew : new ≠ [])
    (hdis : ∀ x ∈ old, x ∉ new) (s : Str) : ¬ old <:+: replaceAll old new s := by
  unfold replaceAll
  rw [if_neg hold]
  exact not_infix_replaceScan_aux old new hold hnew hdis s.length s (Nat.le_refl _)

/-! ## Lemmas on the header map -/

theorem find_delete_same (h : Header) (k : Str) : (h.delete k).find k = none := by
  induction h with
  | nil => rfl
  | cons e t ih =>
    obtain ⟨k1, v⟩ := e
    by_cases hk : k1 = k
    · simp [Header.delete, List.filter, hk] at ih ⊢
      exact ih
    · simp [Header.delete, List.filter, hk, Header.find] at ih ⊢
      exact ih

theorem find_delete_ne (h : Header) (k key : Str) (hne : key ≠ k) :
    (h.delete k).find key = h.find key := by
  induction h with
  | nil => rfl
  | cons e t ih =>
    obtain ⟨k1, v⟩ := e
    by_cases hk : k1 = k
    · have hk1 : k1 ≠ key := by rw [hk]; exact fun h => hne h.symm
      simp [Header.delete, List.filter, hk, Header.find] at ih ⊢
      rw [ih]
      simp [← hk, hk1]
    · simp [Header.delete, List.filter, hk, Header.find] at ih ⊢
      rw [ih]

theorem find_assign_same (h : Header) (k : Str) (v : List Str) :
    (h.assign k v).find k = some v := by
  simp [Header.assign, Header.find]

theorem find_assign_ne (h : Header) (k key : Str) (v : List Str) (hne : key ≠ k) :
    (h.assign k v).find key = h.find key := by
  have : k ≠ key := fun e => hne e.symm
  simp [Header.assign, Header.find, this, find_delete_ne h k key hne]

/-- Reading a field after `mapHeaderVals` on that field. -/
theorem find_mapHeaderVals_same (h : Header) (field : Str) (f : Str → Str) :
    (mapHeaderVals h field f).find field = (h.find field).map (List.map f) := by
  unfold mapHeaderVals Header.index
  cases hf : h.find field with
  | none => simp [hf]
  | some vs =>
    cases vs with
    | nil => simp [hf]
    | cons v vs => simp [find_assign_same]

/-- Reading another field after `mapHeaderVals`. -/
theorem find_mapHeaderVals_ne (h : Header) (field key : Str) (f : Str → Str)
    (hne : key ≠ field) : (mapHeaderVals h field f).find key = h.find key := by
  unfold mapHeaderVals
  simp only []
  split
  · exact find_assign_ne h field key _ hne
  · rfl

/-! ## The response rewriter, branch by branch -/

set_option maxRecDepth 1000000

theorem hasAnyPrefix_iff (s : Str) (ps : List Str) :
    hasAnyPrefix s ps = true ↔ ∃ m ∈ ps, m <+: s := by
  induction ps with
  | nil => simp [hasAnyPrefix]
  | cons q ps ih =>
    unfold hasAnyPrefix
    by_cases hq : HasPrefix s q = true
    · rw [if_pos hq]
      simp only [List.mem_cons, true_iff]
      exact ⟨q, Or.inl rfl, (hasPrefix_iff s q).mp hq⟩
    · rw [if_neg hq, ih]
      simp only [List.mem_cons]
      constructor
      · rintro ⟨m, hm, hpre⟩
        exact ⟨m, Or.inr hm, hpre⟩
      · rintro ⟨m, hm | hm, hpre⟩
        · subst hm
          exact absurd ((hasPrefix_iff s m).mpr hpre) hq
        · exact ⟨m, hm, hpre⟩

theorem find_rewrittenHeader (p : proxy) (resp : Response) (key : Str)
    (h1 : key ≠ str "Location") (h2 : key ≠ str "Set-Cookie") :
    (rewrittenHeader p resp).find key = resp.Header.find key := by
  unfold rewrittenHeader
  rw [find_mapHeaderVals_ne _ _ _ _ h2, find_mapHeaderVals_ne _ _ _ _ h1]

theorem contentTypeOf_rewrittenHeader (p : proxy) (resp : Response) :
    contentTypeOf (rewrittenHeader p resp) = contentTypeOf resp.Header := by
  unfold contentTypeOf Header.index
  rw [find_rewrittenHeader p resp _ (by decide) (by decide)]

theorem contentReaderOf_rewrittenHeader (gz : Stream → Except Error Stream) (p : proxy)
    (resp : Response) :
    contentReaderOf gz (rewrittenHeader p resp) resp.Body =
      contentReaderOf gz resp.Header resp.Body := by
  unfold contentReaderOf Header.Get Header.index
  rw [find_rewrittenHeader p resp _ (by decide) (by decide)]

/-- The body of `modifyBackendResponse`, with its intermediate states named. -/
theorem modifyBackendResponse_eq (gz : Stream → Except Error Stream) (p : proxy)
    (resp : Response) :
    modifyBackendResponse gz p resp =
      if hasAnyPrefix (contentTypeOf (rewrittenHeader p resp)) mimePrefixes then
        match contentReaderOf gz (rewrittenHeader p resp) resp.Body with
        | Except.error err =>
          (⟨resp.StatusCode, rewrittenHeader p resp, resp.Body.Close, resp.Request⟩, some err)
        | Except.ok rd =>
          match ReadAll rd with
          | (_, some err) =>
            (⟨resp.StatusCode, rewrittenHeader p resp, resp.Body.Close, resp.Request⟩, some err)
          | (content, none) =>
            (⟨resp.StatusCode,
              ((rewrittenHeader p resp).Del (str "Content-Length")).Del (str "Content-Encoding"),
              newClosingBuffer (bytesReplace content (stripPort p.backendURL.Host)
                (stripPort resp.Request.Host) (-1)),
              resp.Request⟩, none)
      else (⟨resp.StatusCode, rewrittenHeader p resp, resp.Body, resp.Request⟩, none) :=
  rfl

/-- An ineligible content type: only the two header fields are rewritten. -/
theorem modifyBackendResponse_ineligible (gz : Stream → Except Error Stream) (p : proxy)
    (resp : Response) (h : hasAnyPrefix (contentTypeOf resp.Header) mimePrefixes = false) :
    modifyBackendResponse gz p resp =
      (⟨resp.StatusCode, rewrittenHeader p resp, resp.Body, resp.Request⟩, none) := by
  rw [modifyBackendResponse_eq, contentTypeOf_rewrittenHeader, h]
  rfl

/-- An eligible content type, and opening the reader fails. -/
theorem modifyBackendResponse_open_error (gz : Stream → Except Error Stream) (p : proxy)
    (resp : Response) (e : Error)
    (h : hasAnyPrefix (contentTypeOf resp.Header) mimePrefixes = true)
    (ho : contentReaderOf gz resp.Header resp.Body = Except.error e) :
    modifyBackendResponse gz p resp =
      (⟨resp.StatusCode, rewrittenHeader p resp, resp.Body.Close, resp.Request⟩, some e) := by
  rw [modifyBackendResponse_eq, contentTypeOf_rewrittenHeader, h,
    contentReaderOf_rewrittenHeader, ho]
  rfl

/-- An eligible content type, and reading the content fails. -/
theorem modifyBackendResponse_read_error (gz : Stream → Except Error Stream) (p : proxy)
    (resp : Response) (rd : Stream) (c : Str) (e : Error)
    (h : hasAnyPrefix (contentTypeOf resp.Header) mimePrefixes = true)
    (ho : contentReaderOf gz resp.Header resp.Body = Except.ok rd)
    (hr : ReadAll rd = (c, some e)) :
    modifyBackendResponse gz p resp =
      (⟨resp.StatusCode, rewrittenHeader p resp, resp.Body.Close, resp.Request⟩, some e) := by
  rw [modifyBackendResponse_eq, contentTypeOf_rewrittenHeader, h,
    contentReaderOf_rewrittenHeader, ho]
  simp only [if_true, hr]

/-- An eligible content type, and the content is read to its end. -/
theorem modifyBackendResponse_read_ok (gz : Stream → Except Error Stream) (p : proxy)
    (resp : Response) (rd : Stream) (c : Str)
    (h : hasAnyPrefix (contentTypeOf resp.Header) mimePrefixes = true)
    (ho : contentReaderOf gz resp.Header resp.Body = Except.ok rd)
    (hr : ReadAll rd = (c, none)) :
    modifyBackendResponse gz p resp =
      (⟨resp.StatusCode,
        ((rewrittenHeader p resp).Del (str "Content-Length")).Del (str "Content-Encoding"),
        newClosingBuffer (replaceAll (stripPort p.backendURL.Host)
          (stripPort resp.Request.Host) c),
        resp.Request⟩, none) := by
  rw [modifyBackendResponse_eq, contentTypeOf_rewrittenHeader, h,
    contentReaderOf_rewrittenHeader, ho]
  simp only [if_true, hr, bytesReplace_eq_replaceAll]

/-- Whatever branch is taken, the header map is the rewritten one, with or
without the two content fields deleted, and the status and the request are
those of the input. -/
theorem modifyBackendResponse_header_cases (gz : Stream → Except Error Stream) (p : proxy)
    (resp : Response) :
    (modifyBackendResponse gz p resp).1.Header = rewrittenHeader p resp ∨
    (modifyBackendResponse gz p resp).1.Header =
      ((rewrittenHeader p resp).Del (str "Content-Length")).Del (str "Content-Encoding") := by
  cases h : hasAnyPrefix (contentTypeOf resp.Header) mimePrefixes with
  | false => rw [modifyBackendResponse_ineligible gz p resp h]; exact Or.inl rfl
  | true =>
    cases ho : contentReaderOf gz resp.Header resp.Body with
    | error e => rw [modifyBackendResponse_open_error gz p resp e h ho]; exact Or.inl rfl
    | ok rd =>
      rcases hr : ReadAll rd with ⟨c, _ | e⟩
      · rw [modifyBackendResponse_read_ok gz p resp rd c h ho hr]; exact Or.inr rfl
      · rw [modifyBackendResponse_read_error gz p resp rd c e h ho hr]; exact Or.inl rfl

/-- A field other than the two content fields reads the same in the result as
in the rewritten header map. -/
theorem find_modifyBackendResponse (gz : Stream → Except Error Stream) (p : proxy)
    (resp : Response) (key : Str) (h1 : key ≠ str "Content-Length")
    (h2 : key ≠ str "Content-Encoding") :
    (modifyBackendResponse gz p resp).1.Header.find key = (rewrittenHeader p resp).find key := by
  rcases modifyBackendResponse_header_cases gz p resp with h | h
  · rw [h]
  · rw [h]
    unfold Header.Del
    rw [find_delete_ne _ _ _ h2, find_delete_ne _ _ _ h1]

theorem find_rewrittenHeader_location (p : proxy) (resp : Response) :
    (rewrittenHeader p resp).find (str "Location") =
      (resp.Header.find (str "Location")).map
        (List.map (replaceAll (stripPort p.backendURL.Host) (stripPort resp.Request.Host))) := by
  unfold rewrittenHeader
  rw [find_mapHeaderVals_ne _ _ _ _ (by decide), find_mapHeaderVals_same]
  simp only [Replace_eq_replaceAll]

theorem find_rewrittenHeader_set_cookie (p : proxy) (resp : Response) :
    (rewrittenHeader p resp).find (str "Set-Cookie") =
      (resp.Header.find (str "Set-Cookie")).map
        (List.map (replaceAll (stripPort p.backendURL.Host) (stripPort resp.Request.Host))) := by
  unfold rewrittenHeader
  rw [find_mapHeaderVals_same, find_mapHeaderVals_ne _ _ _ _ (by decide)]
  simp only [Replace_eq_replaceAll]

/-! ## The request director -/

theorem modifyBackendRequest_host (p : proxy) (req : Request) :
    (modifyBackendRequest p req).Host = p.backendURL.Host := by
  unfold modifyBackendRequest
  simp only []
  split <;> rfl

/-- In the reverse proxy the response rewriter reads the host of the request
the director has already pointed at the backend. -/
theorem pipelineResponse_host (p : proxy) (req : Request) (reply : Response) :
    stripPort (pipelineResponse p req reply).Request.Host = stripPort p.backendURL.Host := by
  unfold pipelineResponse
  simp only [modifyBackendRequest_host]

/-! ## Claims -/

/-- C1 (defect of the code): for the client host `public.example.com` and the
Backend Target `http://svc-internal:8080`, the response rewriter run behind the
director takes `svc-internal`, the backend host, as the public host, not
`public.example.com`, the host the client addressed; a redirect to
`http://svc-internal:8080/login` reaches the client unrewritten. -/
theorem C1_pipeline_substitutes_backend_host :
    stripPort (pipelineResponse svcProxy clientRequest (redirectReply clientRequest)).Request.Host
      = str "svc-internal" ∧
    stripPort clientRequest.Host = str "public.example.com" ∧
    (modifyBackendResponse sampleGzip svcProxy
        (pipelineResponse svcProxy clientRequest (redirectReply clientRequest))).1.Header.find
      (str "Location") = some [str "http://svc-internal:8080/login"] := by
  decide

/-- C2 (defect of the code): for the client host `shop.example.org:3000` and the
Backend Target `http://app.internal:9000`, the Referer
`https://shop.example.org:3000/cart` contains the bare client host, replacing
it by the bare backend host would give `https://app.internal:3000/cart`, and
`modifyBackendRequest` leaves the Referer as it was. -/
theorem C2_referer_left_as_it_was :
    stripPort shopRequest.Host <:+: str "https://shop.example.org:3000/cart" ∧
    replaceAll (stripPort shopRequest.Host) (stripPort appProxy.backendURL.Host)
      (str "https://shop.example.org:3000/cart") = str "https://app.internal:3000/cart" ∧
    (modifyBackendRequest appProxy shopRequest).Header.find (str "Referer") =
      some [str "https://shop.example.org:3000/cart"] := by
  refine ⟨⟨str "https://", str ":3000/cart", by decide⟩, by decide, by decide⟩

/-- C3: after `modifyBackendResponse` the values under `Location` and under
`Set-Cookie` are the original values, in their order, each with all
non-overlapping occurrences of `stripPort(b.Host)` replaced by the stripped
host of `resp.Request`; and `session=abc; Domain=svc-internal` becomes
`session=abc; Domain=public.example.com`. -/
theorem C3_location_and_set_cookie_rewritten (gz : Stream → Except Error Stream)
    (p : proxy) (resp : Response) :
    (modifyBackendResponse gz p resp).1.Header.find (str "Location") =
      (resp.Header.find (str "Location")).map
        (List.map (replaceAll (stripPort p.backendURL.Host) (stripPort resp.Request.Host))) ∧
    (modifyBackendResponse gz p resp).1.Header.find (str "Set-Cookie") =
      (resp.Header.find (str "Set-Cookie")).map
        (List.map (replaceAll (stripPort p.backendURL.Host) (stripPort resp.Request.Host))) ∧
    (modifyBackendResponse gz svcProxy cookieReply).1.Header.find (str "Set-Cookie") =
      some [str "session=abc; Domain=public.example.com"] := by
  refine ⟨?_, ?_, ?_⟩
  · rw [find_modifyBackendResponse gz p resp _ (by decide) (by decide),
      find_rewrittenHeader_location]
  · rw [find_modifyBackendResponse gz p resp _ (by decide) (by decide),
      find_rewrittenHeader_set_cookie]
  · rw [find_modifyBackendResponse gz svcProxy cookieReply _ (by decide) (by decide)]
    decide

/-- C4: a response whose first `Content-Type` value starts with one of the
four eligible types, with no `Content-Encoding` field and a body that reads to
its end as `B`: after `modifyBackendResponse`, without error, the body reads as
`B` with every occurrence of the backend host replaced by the public host, and
`Content-Length` and `Content-Encoding` are absent. -/
theorem C4_plain_body_rewritten (gz : Stream → Except Error Stream) (p : proxy)
    (resp : Response) (ct : Str) (more : List Str) (B : Str)
    (hct : resp.Header.find (str "Content-Type") = some (ct :: more))
    (hpre : ∃ m ∈ [str "text/html", str "text/css", str "application/javascript",
      str "application/json"], m <+: ct)
    (hce : resp.Header.find (str "Content-Encoding") = none)
    (hread : ReadAll resp.Body.reader = (B, none)) :
    (modifyBackendResponse gz p resp).2 = none ∧
    ReadAll (modifyBackendResponse gz p resp).1.Body.reader =
      (replaceAll (stripPort p.backendURL.Host) (stripPort resp.Request.Host) B, none) ∧
    (modifyBackendResponse gz p resp).1.Header.find (str "Content-Length") = none ∧
    (modifyBackendResponse gz p resp).1.Header.find (str "Content-Encoding") = none := by
  have hty : contentTypeOf resp.Header = ct := by
    simp [contentTypeOf, Header.index, hct]
  have hel : hasAnyPrefix (contentTypeOf resp.Header) mimePrefixes = true := by
    rw [hty]
    exact (hasAnyPrefix_iff ct mimePrefixes).mpr hpre
  have hopen : contentReaderOf gz resp.Header resp.Body = Except.ok resp.Body.reader := by
    have hget : resp.Header.Get (str "Content-Encoding") = [] := by
      simp [Header.Get, Header.index, hce]
    have hne : ¬ (([] : Str) = str "gzip") := by decide
    unfold contentReaderOf
    rw [hget, if_neg hne]
  rw [modifyBackendResponse_read_ok gz p resp _ B hel hopen hread]
  refine ⟨rfl, rfl, ?_, ?_⟩
  · show Header.find (Header.delete (Header.delete _ _) _) _ = none
    rw [find_delete_ne _ _ _ (by decide), find_delete_same]
  · show Header.find (Header.delete (Header.delete _ _) _) _ = none
    rw [find_delete_same]

/-- C4 at the reply with `Content-Type: text/html; charset=utf-8` whose body
names `backend.internal`. -/
theorem C4_plain_body_rewritten_witness :
    htmlReply.Header.find (str "Content-Type") = some [str "text/html; charset=utf-8"] ∧
    htmlReply.Header.find (str "Content-Encoding") = none ∧
    ReadAll htmlReply.Body.reader = (str "<a href=\"http://backend.internal/x\">x</a>", none) ∧
    replaceAll (stripPort internalProxy.backendURL.Host) (stripPort htmlReply.Request.Host)
      (str "<a href=\"http://backend.internal/x\">x</a>") =
        str "<a href=\"http://public.example.com/x\">x</a>" ∧
    ((modifyBackendResponse sampleGzip internalProxy htmlReply).2 = none ∧
     ReadAll (modifyBackendResponse sampleGzip internalProxy htmlReply).1.Body.reader =
      (replaceAll (stripPort internalProxy.backendURL.Host) (stripPort htmlReply.Request.Host)
        (str "<a href=\"http://backend.internal/x\">x</a>"), none) ∧
     (modifyBackendResponse sampleGzip internalProxy htmlReply).1.Header.find
      (str "Content-Length") = none ∧
     (modifyBackendResponse sampleGzip internalProxy htmlReply).1.Header.find
      (str "Content-Encoding") = none) :=
  ⟨by decide, by decide, by decide, by decide,
    C4_plain_body_rewritten sampleGzip internalProxy htmlReply (str "text/html; charset=utf-8") []
      (str "<a href=\"http://backend.internal/x\">x</a>") (by decide)
      ⟨str "text/html", by decide, ⟨str "; charset=utf-8", by decide⟩⟩ (by decide) (by decide)⟩

/-- C5: a response with an eligible content type and `Content-Encoding: gzip`
whose body is a gzip stream that decompresses, without error, to `D`: after
`modifyBackendResponse`, without error, the body reads as `D`, uncompressed,
with every occurrence of the backend host replaced by the public host, and
`Content-Encoding` and `Content-Length` are absent. -/
theorem C5_gzip_body_decoded_and_rewritten (gz : Stream → Except Error Stream) (p : proxy)
    (resp : Response) (ct : Str) (more : List Str) (rd : Stream) (D : Str)
    (hct : resp.Header.find (str "Content-Type") = some (ct :: more))
    (hpre : ∃ m ∈ [str "text/html", str "text/css", str "application/javascript",
      str "application/json"], m <+: ct)
    (hce : resp.Header.Get (str "Content-Encoding") = str "gzip")
    (hgz : gz resp.Body.reader = Except.ok rd)
    (hread : ReadAll rd = (D, none)) :
    (modifyBackendResponse gz p resp).2 = none ∧
    ReadAll (modifyBackendResponse gz p resp).1.Body.reader =
      (replaceAll (stripPort p.backendURL.Host) (stripPort resp.Request.Host) D, none) ∧
    (modifyBackendResponse gz p resp).1.Header.find (str "Content-Encoding") = none ∧
    (modifyBackendResponse gz p resp).1.Header.find (str "Content-Length") = none := by
  have hty : contentTypeOf resp.Header = ct := by
    simp [contentTypeOf, Header.index, hct]
  have hel : hasAnyPrefix (contentTypeOf resp.Header) mimePrefixes = true := by
    rw [hty]
    exact (hasAnyPrefix_iff ct mimePrefixes).mpr hpre
  have hopen : contentReaderOf gz resp.Header resp.Body = Except.ok rd := by
    unfold contentReaderOf
    rw [if_pos hce, hgz]
  rw [modifyBackendResponse_read_ok gz p resp rd D hel hopen hread]
  refine ⟨rfl, rfl, ?_, ?_⟩
  · show Header.find (Header.delete (Header.delete _ _) _) _ = none
    rw [find_delete_same]
  · show Header.find (Header.delete (Header.delete _ _) _) _ = none
    rw [find_delete_ne _ _ _ (by decide), find_delete_same]

/-- C5 at the gzip-encoded `application/json` reply whose content names
`backend.internal`. -/
theorem C5_gzip_body_decoded_and_rewritten_witness :
    gzipReply.Header.Get (str "Content-Encoding") = str "gzip" ∧
    sampleGzip gzipReply.Body.reader = Except.ok ⟨plainJson, none⟩ ∧
    replaceAll (stripPort internalProxy.backendURL.Host) (stripPort gzipReply.Request.Host)
      plainJson = str "\x7b\"url\":\"http://public.example.com/api\"\x7d" ∧
    ((modifyBackendResponse sampleGzip internalProxy gzipReply).2 = none ∧
     ReadAll (modifyBackendResponse sampleGzip internalProxy gzipReply).1.Body.reader =
      (replaceAll (stripPort internalProxy.backendURL.Host) (stripPort gzipReply.Request.Host)
        plainJson, none) ∧
     (modifyBackendResponse sampleGzip internalProxy gzipReply).1.Header.find
      (str "Content-Encoding") = none ∧
     (modifyBackendResponse sampleGzip internalProxy gzipReply).1.Header.find
      (str "Content-Length") = none) :=
  ⟨by decide, rfl, by decide,
    C5_gzip_body_decoded_and_rewritten sampleGzip internalProxy gzipReply
      (str "application/json") [] ⟨plainJson, none⟩ plainJson (by decide)
      ⟨str "application/json", by decide, ⟨[], by decide⟩⟩ (by decide) rfl rfl⟩


/-- C6 (as stated, refuted): the reply `brokenReply` has the eligible content
type `text/html`, yet `modifyBackendResponse` does not replace its body: the
read fails, the error is returned, and the body is still the original stream,
now closed, not a buffer of rewritten bytes. -/
theorem C6_eligible_body_not_replaced_on_read_error :
    (∃ m ∈ [str "text/html", str "text/css", str "application/javascript",
      str "application/json"], m <+: contentTypeOf brokenReply.Header) ∧
    (modifyBackendResponse sampleGzip internalProxy brokenReply).2 = some "unexpected EOF" ∧
    (modifyBackendResponse sampleGzip internalProxy brokenReply).1.Body =
      brokenReply.Body.Close ∧
    ∀ buf : Str,
      (modifyBackendResponse sampleGzip internalProxy brokenReply).1.Body ≠
        newClosingBuffer buf := by
  refine ⟨⟨str "text/html", by decide, ⟨[], by decide⟩⟩, by decide, by decide, ?_⟩
  intro buf h
  have hc := congrArg Body.closed h
  have hl : (modifyBackendResponse sampleGzip internalProxy brokenReply).1.Body.closed = true := by
    decide
  rw [hl] at hc
  exact Bool.noConfusion hc

/-- C6 (amended): when the first `Content-Type` value has none of the four
types as a prefix, the body, `Content-Length` and `Content-Encoding` are left
as they were and no error is returned; when it has one of them as a prefix and
the content decodes and reads to its end as `B`, the body is replaced by `B`
with the backend host replaced by the public host; and the `image/png` reply
whose payload holds the bytes of the backend host comes back unchanged. -/
theorem C6_body_replaced_iff_eligible (gz : Stream → Except Error Stream) (p : proxy)
    (resp : Response) :
    ((¬ ∃ m ∈ [str "text/html", str "text/css", str "application/javascript",
        str "application/json"], m <+: contentTypeOf resp.Header) →
      (modifyBackendResponse gz p resp).1.Body = resp.Body ∧
      (modifyBackendResponse gz p resp).1.Header.find (str "Content-Length") =
        resp.Header.find (str "Content-Length") ∧
      (modifyBackendResponse gz p resp).1.Header.find (str "Content-Encoding") =
        resp.Header.find (str "Content-Encoding") ∧
      (modifyBackendResponse gz p resp).2 = none) ∧
    ((∃ m ∈ [str "text/html", str "text/css", str "application/javascript",
        str "application/json"], m <+: contentTypeOf resp.Header) →
      ∀ (rd : Stream) (B : Str), contentReaderOf gz resp.Header resp.Body = Except.ok rd →
        ReadAll rd = (B, none) →
        (modifyBackendResponse gz p resp).1.Body =
          newClosingBuffer
            (replaceAll (stripPort p.backendURL.Host) (stripPort resp.Request.Host) B)) ∧
    modifyBackendResponse gz internalProxy pngReply = (pngReply, none) := by
  refine ⟨?_, ?_, ?_⟩
  · intro hne
    have hel : hasAnyPrefix (contentTypeOf resp.Header) mimePrefixes = false := by
      cases h : hasAnyPrefix (contentTypeOf resp.Header) mimePrefixes with
      | false => rfl
      | true => exact absurd ((hasAnyPrefix_iff _ mimePrefixes).mp h) hne
    rw [modifyBackendResponse_ineligible gz p resp hel]
    refine ⟨rfl, ?_, ?_, rfl⟩
    · exact find_rewrittenHeader p resp _ (by decide) (by decide)
    · exact find_rewrittenHeader p resp _ (by decide) (by decide)
  · intro he rd B ho hr
    have hel : hasAnyPrefix (contentTypeOf resp.Header) mimePrefixes = true :=
      (hasAnyPrefix_iff _ mimePrefixes).mpr he
    rw [modifyBackendResponse_read_ok gz p resp rd B hel ho hr]
  · rw [modifyBackendResponse_ineligible gz internalProxy pngReply (by decide)]
    decide

/-- C7: `modifyBackendResponse` returns the error `e` exactly when the content
type is eligible and either `Content-Encoding` is `gzip` and opening the gzip
reader fails with `e`, or reading the (decoded) content fails with `e`; it
returns no error exactly when the content type is not eligible or the content
decodes and reads to its end. -/
theorem C7_error_exactly_on_decode_or_read_failure (gz : Stream → Except Error Stream)
    (p : proxy) (resp : Response) (e : Error) :
    ((modifyBackendResponse gz p resp).2 = some e ↔
      (∃ m ∈ [str "text/html", str "text/css", str "application/javascript",
        str "application/json"], m <+: contentTypeOf resp.Header) ∧
      ((resp.Header.Get (str "Content-Encoding") = str "gzip" ∧
          gz resp.Body.reader = Except.error e) ∨
       (∃ rd c, contentReaderOf gz resp.Header resp.Body = Except.ok rd ∧
          ReadAll rd = (c, some e)))) ∧
    ((modifyBackendResponse gz p resp).2 = none ↔
      (¬ ∃ m ∈ [str "text/html", str "text/css", str "application/javascript",
        str "application/json"], m <+: contentTypeOf resp.Header) ∨
      (∃ rd c, contentReaderOf gz resp.Header resp.Body = Except.ok rd ∧
          ReadAll rd = (c, none))) := by
  have hiff := hasAnyPrefix_iff (contentTypeOf resp.Header) mimePrefixes
  change (hasAnyPrefix (contentTypeOf resp.Header) mimePrefixes = true ↔
    ∃ m ∈ [str "text/html", str "text/css", str "application/javascript",
      str "application/json"], m <+: contentTypeOf resp.Header) at hiff
  rw [← hiff]
  have hopen_err : ∀ e1, contentReaderOf gz resp.Header resp.Body = Except.error e1 →
      resp.Header.Get (str "Content-Encoding") = str "gzip" ∧
        gz resp.Body.reader = Except.error e1 := by
    intro e1 h
    unfold contentReaderOf at h
    by_cases hz : resp.Header.Get (str "Content-Encoding") = str "gzip"
    · rw [if_pos hz] at h
      exact ⟨hz, h⟩
    · rw [if_neg hz] at h
      exact Except.noConfusion h
  cases hel : hasAnyPrefix (contentTypeOf resp.Header) mimePrefixes with
  | false =>
    rw [modifyBackendResponse_ineligible gz p resp hel]
    simp
  | true =>
    cases ho : contentReaderOf gz resp.Header resp.Body with
    | error e1 =>
      rw [modifyBackendResponse_open_error gz p resp e1 hel ho]
      obtain ⟨hz, hg⟩ := hopen_err e1 ho
      dsimp only
      refine ⟨⟨?_, ?_⟩, ⟨?_, ?_⟩⟩
      · intro h
        injection h with h
        subst h
        exact ⟨rfl, Or.inl ⟨hz, hg⟩⟩
      · rintro ⟨_, ⟨_, hg1⟩ | ⟨rd, c, h1, _⟩⟩
        · rw [hg] at hg1
          injection hg1 with hg1
          rw [hg1]
        · exact Except.noConfusion h1
      · intro h
        exact Option.noConfusion h
      · rintro (h | ⟨rd, c, h1, _⟩)
        · exact absurd rfl h
        · exact Except.noConfusion h1
    | ok rd =>
      have hnot : ¬ (resp.Header.Get (str "Content-Encoding") = str "gzip" ∧
          gz resp.Body.reader = Except.error e) := by
        rintro ⟨hz, hg⟩
        unfold contentReaderOf at ho
        rw [if_pos hz, hg] at ho
        exact Except.noConfusion ho
      rcases hr : ReadAll rd with ⟨c, _ | e1⟩
      · rw [modifyBackendResponse_read_ok gz p resp rd c hel ho hr]
        dsimp only
        refine ⟨⟨?_, ?_⟩, ⟨?_, ?_⟩⟩
        · intro h
          exact Option.noConfusion h
        · rintro ⟨_, hA | ⟨rd1, c1, h1, h2⟩⟩
          · exact absurd hA hnot
          · injection h1 with h1
            subst h1
            rw [hr] at h2
            exact Option.noConfusion (Prod.mk.inj h2).2
        · intro _
          exact Or.inr ⟨rd, c, rfl, hr⟩
        · intro _
          rfl
      · rw [modifyBackendResponse_read_error gz p resp rd c e1 hel ho hr]
        dsimp only
        refine ⟨⟨?_, ?_⟩, ⟨?_, ?_⟩⟩
        · intro h
          injection h with h
          subst h
          exact ⟨rfl, Or.inr ⟨rd, c, rfl, hr⟩⟩
        · rintro ⟨_, hA | ⟨rd1, c1, h1, h2⟩⟩
          · exact absurd hA hnot
          · injection h1 with h1
            subst h1
            rw [hr] at h2
            exact (Prod.mk.inj h2).2
        · intro h
          exact Option.noConfusion h
        · rintro (h | ⟨rd1, c1, h1, h2⟩)
          · exact absurd rfl h
          · injection h1 with h1
            subst h1
            rw [hr] at h2
            exact Option.noConfusion (Prod.mk.inj h2).2

/-! ## Occurrences that cannot overlap the replacement -/

/-- An occurrence of `old` that starts inside a suffix `m` of `new` lies
behind `m`, when `old` does not occur in `new` and no non-empty suffix of
`new` is a prefix of `old`. -/
theorem infix_behind_of_no_overlap (old new : Str)
    (hin : ¬ old <:+: new)
    (hps : ∀ v ∈ new.tails, v ≠ [] → ¬ v <+: old)
    (m r : Str) (hm : m <:+ new) (h : old <:+: m ++ r) : old <:+: r := by
  induction m with
  | nil => simpa using h
  | cons x m ih =>
    have hm1 : m <:+ new := (List.suffix_cons x m).trans hm
    rw [List.cons_append] at h
    rcases List.infix_cons_iff.mp h with hpre | hinf
    · exfalso
      have hxm : x :: m <+: (x :: m) ++ r := List.prefix_append _ _
      rcases List.prefix_or_prefix_of_prefix hpre hxm with h1 | h2
      · exact hin (List.infix_iff_prefix_suffix.mpr ⟨x :: m, h1, hm⟩)
      · exact hps (x :: m) ((List.mem_tails _ _).mpr hm) (List.cons_ne_nil _ _) h2
    · exact ih hm1 hinf

/-- An occurrence of `old` in `p ++ new ++ r` lies inside `p` or inside `r`,
when no occurrence of `old` can overlap `new`: neither text occurs in the
other, and no non-empty suffix of one is a prefix of the other. -/
theorem infix_split_of_no_overlap (old new : Str)
    (hin : ¬ old <:+: new) (hni : ¬ new <:+: old)
    (hsp : ∀ v ∈ old.tails, v ≠ [] → ¬ v <+: new)
    (hps : ∀ v ∈ new.tails, v ≠ [] → ¬ v <+: old)
    (p r : Str) (h : old <:+: p ++ new ++ r) :
    old <:+: p ∨ old <:+: r := by
  induction p with
  | nil =>
    right
    exact infix_behind_of_no_overlap old new hin hps new r (List.suffix_refl _) (by simpa using h)
  | cons c p ih =>
    simp only [List.cons_append] at h
    rcases List.infix_cons_iff.mp h with hpre | hinf
    · have hwhole : old <+: (c :: p) ++ (new ++ r) := by simpa using hpre
      have hcp : c :: p <+: (c :: p) ++ (new ++ r) := List.prefix_append _ _
      rcases List.prefix_or_prefix_of_prefix hwhole hcp with h1 | h2
      · exact Or.inl h1.isInfix
      · obtain ⟨w, hw⟩ := h2
        cases w with
        | nil =>
          left
          rw [List.append_nil] at hw
          rw [← hw]
        | cons w0 w =>
          exfalso
          rw [← hw] at hwhole
          have hw2 : w0 :: w <+: new ++ r := (List.prefix_append_right_inj _).mp hwhole
          have hsuf : w0 :: w <:+ old := ⟨c :: p, hw⟩
          rcases List.prefix_or_prefix_of_prefix hw2 (List.prefix_append new r) with h3 | h4
          · exact hsp (w0 :: w) ((List.mem_tails _ _).mpr hsuf) (List.cons_ne_nil _ _) h3
          · exact hni (List.infix_iff_prefix_suffix.mpr ⟨w0 :: w, h4, hsuf⟩)
    · rcases ih (by simpa using hinf) with h1 | h2
      · exact Or.inl (List.infix_cons h1)
      · exact Or.inr h2

theorem not_infix_replaceScan_of_no_overlap (old new : Str)
    (hin : ¬ old <:+: new) (hni : ¬ new <:+: old)
    (hsp : ∀ v ∈ old.tails, v ≠ [] → ¬ v <+: new)
    (hps : ∀ v ∈ new.tails, v ≠ [] → ¬ v <+: old) :
    ∀ (n : Nat) (s : Str), s.length ≤ n → ¬ old <:+: replaceScan old new 0 s := by
  have hold : old ≠ [] := by
    intro he
    apply hin
    rw [he]
    exact List.nil_infix
  have hlen : 1 ≤ old.length := List.length_pos.mpr hold
  intro n
  induction n with
  | zero =>
    intro s hs
    have : s = [] := List.length_eq_zero.mp (by omega)
    subst this
    intro hocc
    simp only [replaceScan] at hocc
    exact hold (List.eq_nil_of_infix_nil hocc)
  | succ n ih =>
    intro s hs
    have hge := index_ge s old
    by_cases hi : Index s old < 0
    · rw [replaceScan_of_index_neg old new s hi]
      exact not_infix_of_index_neg old hold s hi
    · have h0 : 0 ≤ Index s old := by omega
      rw [replaceScan_of_index old new hold s h0]
      intro hocc
      rcases infix_split_of_no_overlap old new hin hni hsp hps _ _ hocc with h1 | h2
      · exact not_infix_take_index old hold s h0 h1
      · refine ih _ ?_ h2
        rw [List.length_drop]
        omega

/-- After replacing all occurrences of `old` by `new`, no occurrence of `old`
is left, when no occurrence of `old` can overlap `new`. -/
theorem not_infix_replaceAll_of_no_overlap (old new : Str)
    (hin : ¬ old <:+: new) (hni : ¬ new <:+: old)
    (hsp : ∀ v ∈ old.tails, v ≠ [] → ¬ v <+: new)
    (hps : ∀ v ∈ new.tails, v ≠ [] → ¬ v <+: old) (s : Str) :
    ¬ old <:+: replaceAll old new s := by
  have hold : old ≠ [] := by
    intro he
    apply hin
    rw [he]
    exact List.nil_infix
  unfold replaceAll
  rw [if_neg hold]
  exact not_infix_replaceScan_of_no_overlap old new hin hni hsp hps s.length s (Nat.le_refl _)

/-- C8 (as stated, refuted): for the backend host `internal` and the public
host `internal.example.com`, the Location value `http://internal/login`
contains the bare backend host, and so does the rewritten value
`http://internal.example.com/login`. -/
theorem C8_backend_host_remains_inside_public_host :
    stripPort nestedProxy.backendURL.Host <:+: str "http://internal/login" ∧
    (modifyBackendResponse sampleGzip nestedProxy nestedReply).1.Header.find (str "Location") =
      some [str "http://internal.example.com/login"] ∧
    stripPort nestedProxy.backendURL.Host <:+: str "http://internal.example.com/login" := by
  refine ⟨⟨str "http://", str "/login", by decide⟩, by decide,
    ⟨str "http://", str ".example.com/login", by decide⟩⟩

/-- C8 (amended): when no occurrence of the bare backend host can overlap the
bare public host, that is, neither host occurs in the other and no non-empty
suffix of one is a prefix of the other, no value under `Location` or
`Set-Cookie` contains the bare backend host after `modifyBackendResponse`. -/
theorem C8_no_backend_host_left_without_overlap (gz : Stream → Except Error Stream)
    (p : proxy) (resp : Response)
    (hin : ¬ stripPort p.backendURL.Host <:+: stripPort resp.Request.Host)
    (hni : ¬ stripPort resp.Request.Host <:+: stripPort p.backendURL.Host)
    (hsp : ∀ v ∈ (stripPort p.backendURL.Host).tails, v ≠ [] →
      ¬ v <+: stripPort resp.Request.Host)
    (hps : ∀ v ∈ (stripPort resp.Request.Host).tails, v ≠ [] →
      ¬ v <+: stripPort p.backendURL.Host)
    (key : Str) (hkey : key = str "Location" ∨ key = str "Set-Cookie")
    (vs : List Str) (hvs : (modifyBackendResponse gz p resp).1.Header.find key = some vs)
    (v : Str) (hv : v ∈ vs) :
    ¬ stripPort p.backendURL.Host <:+: v := by
  have hfind : (modifyBackendResponse gz p resp).1.Header.find key =
      (resp.Header.find key).map
        (List.map (replaceAll (stripPort p.backendURL.Host) (stripPort resp.Request.Host))) := by
    rcases hkey with rfl | rfl
    · rw [find_modifyBackendResponse gz p resp _ (by decide) (by decide),
        find_rewrittenHeader_location]
    · rw [find_modifyBackendResponse gz p resp _ (by decide) (by decide),
        find_rewrittenHeader_set_cookie]
  rw [hfind] at hvs
  cases horig : resp.Header.find key with
  | none => rw [horig] at hvs; exact Option.noConfusion hvs
  | some ws =>
    rw [horig] at hvs
    simp only [Option.map_some', Option.some.injEq] at hvs
    rw [← hvs] at hv
    obtain ⟨w, _, rfl⟩ := List.mem_map.mp hv
    exact not_infix_replaceAll_of_no_overlap _ _ hin hni hsp hps w

/-- C8 (amended) at the redirect from `svc-internal:8080` to a client of
`public.example.com`, two hosts that share letters but cannot overlap. -/
theorem C8_no_backend_host_left_without_overlap_witness :
    stripPort svcProxy.backendURL.Host = str "svc-internal" ∧
    stripPort (redirectReply clientRequest).Request.Host = str "public.example.com" ∧
    (modifyBackendResponse sampleGzip svcProxy (redirectReply clientRequest)).1.Header.find
      (str "Location") = some [str "http://public.example.com:8080/login"] ∧
    ¬ stripPort svcProxy.backendURL.Host <:+: str "http://public.example.com:8080/login" :=
  ⟨by decide, by decide, by decide,
    C8_no_backend_host_left_without_overlap sampleGzip svcProxy (redirectReply clientRequest)
      (by decide) (by decide) (by decide) (by decide) (str "Location") (Or.inl rfl)
      [str "http://public.example.com:8080/login"] (by decide)
      (str "http://public.example.com:8080/login") (List.mem_singleton.mpr rfl)⟩

/-- C9 (as stated, refuted): for the Backend Target `http://svc-internal:8080`
and a request for `public.example.com`, the 302 reply with
`Location: http://svc-internal:8080/login` does not come out with
`Location: http://public.example.com/login`. -/
theorem C9_location_is_not_portless :
    (modifyBackendResponse sampleGzip svcProxy (redirectReply clientRequest)).1.Header.find
      (str "Location") ≠ some [str "http://public.example.com/login"] := by
  decide

/-- C9 (amended): for the Backend Target `http://svc-internal:8080` and a
request for `public.example.com`, the 302 reply with
`Location: http://svc-internal:8080/login` comes out, still a 302, with
`Location: http://public.example.com:8080/login`: the bare host is
substituted and the port of the Location stays. -/
theorem C9_location_keeps_backend_port :
    (redirectReply clientRequest).Request.Host = str "public.example.com" ∧
    (modifyBackendResponse sampleGzip svcProxy (redirectReply clientRequest)).1.StatusCode
      = 302 ∧
    (modifyBackendResponse sampleGzip svcProxy (redirectReply clientRequest)).1.Header.find
      (str "Location") = some [str "http://public.example.com:8080/login"] := by
  decide

/-- C10 (defect of the code): for the Backend Target `http://svc-internal:8080`
and the request for `public.example.com` with
`Referer: http://public.example.com/page`, `modifyBackendRequest` sets the
transport Host to `svc-internal:8080` and leaves the Referer at
`http://public.example.com/page`; it does not become
`http://svc-internal:8080/page`. -/
theorem C10_host_set_and_referer_left_as_it_was :
    clientRequest.Host = str "public.example.com" ∧
    clientRequest.Header.find (str "Referer") = some [str "http://public.example.com/page"] ∧
    (modifyBackendRequest svcProxy clientRequest).Host = str "svc-internal:8080" ∧
    (modifyBackendRequest svcProxy clientRequest).Header.find (str "Referer") =
      some [str "http://public.example.com/page"] ∧
    (modifyBackendRequest svcProxy clientRequest).Header.find (str "Referer") ≠
      some [str "http://svc-internal:8080/page"] := by
  decide

/-! ## More on the request director -/

/-- The header map `modifyBackendRequest` leaves behind: `User-Agent` is set
when it was absent, then the `Referer` values are mapped by a replacement of
the stripped backend host by itself. -/
theorem modifyBackendRequest_header (p : proxy) (req : Request) :
    (modifyBackendRequest p req).Header =
      mapHeaderVals
        (if (req.Header.find (str "User-Agent")).isSome then req.Header
         else req.Header.Set (str "User-Agent") (str ""))
        (str "Referer")
        (fun s => Replace s (stripPort p.backendURL.Host) (stripPort p.backendURL.Host) (-1)) := by
  unfold modifyBackendRequest
  simp only []
  split <;> rfl

theorem Replace_self (s old : Str) (n : Int) : Replace s old old n = s := by
  unfold Replace
  simp

theorem map_Replace_self (old : Str) (vs : List Str) :
    vs.map (fun s => Replace s old old (-1)) = vs := by
  induction vs with
  | nil => rfl
  | cons v vs ih => rw [List.map_cons, Replace_self, ih]

/-- C11: after `modifyBackendRequest` the URL scheme is the Backend Target's
scheme, the URL host is the Backend Target's host, port included, and the
transport Host is the Backend Target's host, whatever they were before. -/
theorem C11_request_points_at_backend (p : proxy) (req : Request) :
    (modifyBackendRequest p req).URL.Scheme = p.backendURL.Scheme ∧
    (modifyBackendRequest p req).URL.Host = p.backendURL.Host ∧
    (modifyBackendRequest p req).Host = p.backendURL.Host := by
  unfold modifyBackendRequest
  simp only []
  split <;> exact ⟨rfl, rfl, rfl⟩

/-- C12: when the header map has no `User-Agent` field, `modifyBackendRequest`
leaves it with exactly one value under `User-Agent`, the empty string; when the
field is present, its values are unchanged. -/
theorem C12_user_agent_set_when_absent (p : proxy) (req : Request) :
    (req.Header.find (str "User-Agent") = none →
      (modifyBackendRequest p req).Header.find (str "User-Agent") = some [str ""]) ∧
    (∀ vs, req.Header.find (str "User-Agent") = some vs →
      (modifyBackendRequest p req).Header.find (str "User-Agent") = some vs) := by
  rw [modifyBackendRequest_header, find_mapHeaderVals_ne _ _ _ _ (by decide)]
  constructor
  · intro h
    rw [h]
    simp only [Option.isSome_none, Bool.false_eq_true, if_false]
    exact find_assign_same _ _ _
  · intro vs h
    rw [h]
    simp only [Option.isSome_some, if_true]
    exact h

/-- C13: when the map has no values under the field, `mapHeaderVals` returns
the map unchanged, and an absent field stays absent; otherwise the values
under the field become the transformed values, as many and in the same order;
every other field reads as before. -/
theorem C13_mapHeaderVals_values (H : Header) (f : Str) (t : Str → Str) :
    (H.index f = [] →
      mapHeaderVals H f t = H ∧ (H.find f = none → (mapHeaderVals H f t).find f = none)) ∧
    (∀ v vs, H.index f = v :: vs →
      (mapHeaderVals H f t).find f = some (t v :: vs.map t) ∧
      (mapHeaderVals H f t).index f = (v :: vs).map t ∧
      ((mapHeaderVals H f t).index f).length = (v :: vs).length ∧
      ∀ i : Nat, ((mapHeaderVals H f t).index f)[i]? = ((v :: vs)[i]?).map t) ∧
    (∀ key, key ≠ f → (mapHeaderVals H f t).find key = H.find key) := by
  refine ⟨?_, ?_, ?_⟩
  · intro h
    have hm : mapHeaderVals H f t = H := by
      unfold mapHeaderVals
      simp [h]
    rw [hm]
    exact ⟨rfl, fun h => h⟩
  · intro v vs h
    have hfind : (mapHeaderVals H f t).find f = some (t v :: vs.map t) := by
      unfold mapHeaderVals
      simp only [h, List.length_cons, Nat.succ_pos, if_true, gt_iff_lt, Nat.zero_lt_succ,
        List.map_cons]
      exact find_assign_same _ _ _
    have hidx : (mapHeaderVals H f t).index f = (v :: vs).map t := by
      unfold Header.index
      rw [hfind]
      rfl
    refine ⟨hfind, hidx, ?_, ?_⟩
    · rw [hidx, List.length_map]
    · intro i
      rw [hidx, List.getElem?_map]
  · intro key hne
    exact find_mapHeaderVals_ne H f key t hne

/-- C14 (as stated, refuted): the key `location` equals `Location` up to letter
case, yet `mapHeaderVals` called with `Location` does not find the value stored
under `location`: the map comes back unchanged and the value untransformed. -/
theorem C14_lower_case_key_not_matched :
    equalFold (str "location") (str "Location") = true ∧
    mapHeaderVals lowerKeyHeader (str "Location")
      (fun s => Replace s (str "svc-internal") (str "public.example.com") (-1)) =
        lowerKeyHeader ∧
    (mapHeaderVals lowerKeyHeader (str "Location")
      (fun s => Replace s (str "svc-internal") (str "public.example.com") (-1))).find
        (str "location") ≠ some [str "http://public.example.com:8080/login"] := by
  decide

/-- C14 (amended): `mapHeaderVals` matches the field name byte for byte: the
values stored under exactly `fieldName` are replaced by their transformed
values, and the values stored under any other key, also one that differs from
`fieldName` only in letter case, are left as they are. -/
theorem C14_field_name_matched_exactly (H : Header) (fieldName : Str) (t : Str → Str) :
    (mapHeaderVals H fieldName t).find fieldName = (H.find fieldName).map (List.map t) ∧
    (∀ key, key ≠ fieldName → (mapHeaderVals H fieldName t).find key = H.find key) ∧
    (∀ key, key ≠ fieldName → equalFold key fieldName = true →
      (mapHeaderVals H fieldName t).find key = H.find key) :=
  ⟨find_mapHeaderVals_same H fieldName t,
    fun key hne => find_mapHeaderVals_ne H fieldName key t hne,
    fun key hne _ => find_mapHeaderVals_ne H fieldName key t hne⟩

/-- C17: `modifyBackendRequest` leaves the method, the URL path, the URL query
and every header field other than `User-Agent` and `Referer` as they were. -/
theorem C17_request_frame (p : proxy) (req : Request) :
    (modifyBackendRequest p req).Method = req.Method ∧
    (modifyBackendRequest p req).URL.Path = req.URL.Path ∧
    (modifyBackendRequest p req).URL.RawQuery = req.URL.RawQuery ∧
    (∀ key, key ≠ str "User-Agent" → key ≠ str "Referer" →
      (modifyBackendRequest p req).Header.find key = req.Header.find key) ∧
    (∀ vs, req.Header.find (str "User-Agent") = some vs →
      (modifyBackendRequest p req).Header.find (str "User-Agent") = some vs) := by
  refine ⟨?_, ?_, ?_, ?_, ?_⟩
  · unfold modifyBackendRequest
    simp only []
    split <;> rfl
  · unfold modifyBackendRequest
    simp only []
    split <;> rfl
  · unfold modifyBackendRequest
    simp only []
    split <;> rfl
  · intro key hua href
    rw [modifyBackendRequest_header, find_mapHeaderVals_ne _ _ _ _ href]
    split
    · rfl
    · exact find_assign_ne _ _ _ _ hua
  · intro vs h
    rw [modifyBackendRequest_header, find_mapHeaderVals_ne _ _ _ _ (by decide), h]
    simp only [Option.isSome_some, if_true]
    exact h

/-- C18: `modifyBackendRequest` leaves every `Referer` value exactly as it
was, for every request and every Backend Target, the empty backend host
included: the transport Host already holds the backend host when the transform
reads it, and replacing a text by itself changes nothing. -/
theorem C18_referer_unchanged (p : proxy) (req : Request) :
    (modifyBackendRequest p req).Header.find (str "Referer") =
      req.Header.find (str "Referer") ∧
    (∀ s, Replace s (stripPort (modifyBackendRequest p req).Host)
      (stripPort p.backendURL.Host) (-1) = s) := by
  constructor
  · rw [modifyBackendRequest_header, find_mapHeaderVals_same]
    have hua : (if (req.Header.find (str "User-Agent")).isSome then req.Header
        else req.Header.Set (str "User-Agent") (str "")).find (str "Referer") =
        req.Header.find (str "Referer") := by
      split
      · rfl
      · exact find_assign_ne _ _ _ _ (by decide)
    rw [hua]
    cases req.Header.find (str "Referer") with
    | none => rfl
    | some vs => simp only [Option.map_some', map_Replace_self]
  · intro s
    rw [modifyBackendRequest_host, Replace_self]

/-! ## Splitting off the port -/

theorem hasPrefix_single (c x : Byte) (t : Str) : HasPrefix (c :: t) [x] = decide (c = x) := by
  unfold HasPrefix
  simp

theorem index_single_of_not_mem (x : Byte) (s : Str) (h : x ∉ s) : Index s [x] = -1 := by
  induction s with
  | nil => simp [Index]
  | cons c t ih =>
    have hc : c ≠ x := fun e => h (e ▸ List.mem_cons_self _ _)
    have ht : x ∉ t := fun m => h (List.mem_cons_of_mem _ m)
    have hp : HasPrefix (c :: t) [x] = false := by
      rw [hasPrefix_single]
      exact decide_eq_false hc
    rw [index_cons_of_not c t [x] hp, ih ht]
    simp

theorem index_single_append (x : Byte) (a b : Str) (h : x ∉ a) :
    Index (a ++ x :: b) [x] = a.length := by
  induction a with
  | nil =>
    have hp : HasPrefix (x :: b) [x] = true := by
      rw [hasPrefix_single]
      exact decide_eq_true rfl
    simpa using index_cons_of_hasPrefix x b [x] hp
  | cons c a ih =>
    have hc : c ≠ x := fun e => h (e ▸ List.mem_cons_self _ _)
    have ha : x ∉ a := fun m => h (List.mem_cons_of_mem _ m)
    have hp : HasPrefix (c :: (a ++ x :: b)) [x] = false := by
      rw [hasPrefix_single]
      exact decide_eq_false hc
    rw [List.cons_append, index_cons_of_not c _ [x] hp, ih ha]
    have hnn : ¬ ((a.length : Int) < 0) := by omega
    rw [if_neg hnn]
    simp

theorem genSplitLoop_of_index_neg (k : Nat) (s sep : Str) (h : Index s sep < 0) :
    genSplitLoop k s sep = [s] := by
  cases k with
  | zero => rfl
  | succ k => simp [genSplitLoop, h]

theorem countLoop_pos (fuel : Nat) (s sep : Str) (h : 0 ≤ Index s sep) :
    1 ≤ countLoop (fuel + 1) s sep 0 := by
  have hne : ¬ Index s sep = -1 := by omega
  simp only [countLoop, hne, if_false]
  rw [countLoop_acc]
  omega

/-- The first piece `Split` returns: the whole text when the separator does
not occur, the text before its first occurrence otherwise. -/
theorem split_head (s sep : Str) (hsep : sep ≠ []) :
    (Split s sep)[0]? =
      some (if Index s sep < 0 then s else s.take (Index s sep).toNat) := by
  have hlen0 : sep.length ≠ 0 := by simpa using hsep
  unfold Split
  rw [if_neg hlen0]
  by_cases hi : Index s sep < 0
  · rw [genSplitLoop_of_index_neg _ s sep hi, if_pos hi]
    rfl
  · rw [if_neg hi]
    have h0 : 0 ≤ Index s sep := by omega
    have hcount : 1 ≤ Count s sep := by
      unfold Count
      rw [if_neg hlen0]
      exact countLoop_pos s.length s sep h0
    have hs : 1 ≤ s.length := by
      cases s with
      | nil => rw [index_nil_left sep hsep] at h0; omega
      | cons c t => simp
    obtain ⟨k, hk⟩ : ∃ k, min (Count s sep + 1) (s.length + 1) - 1 = k + 1 :=
      ⟨min (Count s sep + 1) (s.length + 1) - 2, by omega⟩
    rw [hk]
    simp [genSplitLoop, hi]

theorem stripPort_eq (s : Str) :
    stripPort s =
      if Index s (str ":") < 0 then s else s.take (Index s (str ":")).toNat := by
  unfold stripPort
  rw [split_head s (str ":") (by decide)]
  rfl

/-! ## Replacing twice -/

theorem index_neg_of_absent (old : Str) (hold : old ≠ []) (s : Str)
    (h : ¬ old <:+: s) : Index s old < 0 := by
  induction s with
  | nil => rw [index_nil_left old hold]; omega
  | cons c t ih =>
    have hp : HasPrefix (c :: t) old = false := by
      cases hp : HasPrefix (c :: t) old with
      | false => rfl
      | true => exact absurd ((hasPrefix_iff _ _).mp hp).isInfix h
    have ht : ¬ old <:+: t := fun hin => h (List.infix_cons hin)
    rw [index_cons_of_not c t old hp, if_pos (ih ht)]
    omega

/-- A text without an occurrence of the pattern is left as it is. -/
theorem replaceAll_of_absent (old new : Str) (hold : old ≠ []) (s : Str)
    (h : ¬ old <:+: s) : replaceAll old new s = s := by
  unfold replaceAll
  rw [if_neg hold]
  exact replaceScan_of_index_neg old new s (index_neg_of_absent old hold s h)

/-- Replacing a second time changes nothing when the pattern and the
replacement are non-empty and share no byte. -/
theorem replaceAll_idem (old new : Str) (hold : old ≠ []) (hnew : new ≠ [])
    (hdis : ∀ x ∈ old, x ∉ new) (s : Str) :
    replaceAll old new (replaceAll old new s) = replaceAll old new s :=
  replaceAll_of_absent old new hold _ (not_infix_replaceAll old new hold hnew hdis s)

/-! ## More on the response rewriter -/

theorem modifyBackendResponse_status_request (gz : Stream → Except Error Stream) (p : proxy)
    (resp : Response) :
    (modifyBackendResponse gz p resp).1.StatusCode = resp.StatusCode ∧
    (modifyBackendResponse gz p resp).1.Request = resp.Request := by
  cases h : hasAnyPrefix (contentTypeOf resp.Header) mimePrefixes with
  | false => rw [modifyBackendResponse_ineligible gz p resp h]; exact ⟨rfl, rfl⟩
  | true =>
    cases ho : contentReaderOf gz resp.Header resp.Body with
    | error e => rw [modifyBackendResponse_open_error gz p resp e h ho]; exact ⟨rfl, rfl⟩
    | ok rd =>
      rcases hr : ReadAll rd with ⟨c, _ | e⟩
      · rw [modifyBackendResponse_read_ok gz p resp rd c h ho hr]; exact ⟨rfl, rfl⟩
      · rw [modifyBackendResponse_read_error gz p resp rd c e h ho hr]; exact ⟨rfl, rfl⟩

/-! ## Claims, continued -/

/-- C15: for every string `s`, the empty one and those with several colons
included, index 0 of the split is in bounds, so `stripPort(s)` returns; the
result is `s` itself when `s` holds no colon, and the text before the first
colon when it holds one. -/
theorem C15_stripPort_total_and_first_piece (s : Str) :
    0 < (Split s (str ":")).length ∧
    (Split s (str ":"))[0]? = some (stripPort s) ∧
    ((58 : Byte) ∉ s → stripPort s = s) ∧
    (∀ a b : Str, s = a ++ (58 : Byte) :: b → (58 : Byte) ∉ a → stripPort s = a) ∧
    stripPort (str "") = str "" ∧
    stripPort (str "host:80:90") = str "host" := by
  have hcolon : str ":" = [(58 : Byte)] := by decide
  have hhead := split_head s (str ":") (by decide)
  refine ⟨?_, ?_, ?_, ?_, by decide, by decide⟩
  · cases hsp : Split s (str ":") with
    | nil => rw [hsp] at hhead; simp at hhead
    | cons x xs => simp
  · rw [hhead, stripPort_eq]
  · intro h
    rw [stripPort_eq, hcolon, index_single_of_not_mem 58 s h]
    simp
  · intro a b hs ha
    rw [stripPort_eq, hcolon, hs, index_single_append 58 a b ha]
    have hnn : ¬ ((a.length : Int) < 0) := by omega
    rw [if_neg hnn]
    simp

/-- C16: `modifyBackendResponse` leaves the status, and every header field
other than `Location`, `Set-Cookie`, `Content-Length` and `Content-Encoding`,
exactly as they were, on every branch: body rewritten or not, error or not. -/
theorem C16_response_frame (gz : Stream → Except Error Stream) (p : proxy) (resp : Response)
    (key : Str) (h1 : key ≠ str "Location") (h2 : key ≠ str "Set-Cookie")
    (h3 : key ≠ str "Content-Length") (h4 : key ≠ str "Content-Encoding") :
    (modifyBackendResponse gz p resp).1.StatusCode = resp.StatusCode ∧
    (modifyBackendResponse gz p resp).1.Header.find key = resp.Header.find key := by
  refine ⟨(modifyBackendResponse_status_request gz p resp).1, ?_⟩
  rw [find_modifyBackendResponse gz p resp key h3 h4, find_rewrittenHeader p resp key h1 h2]

/-- C16 at the field `X-Served-By` of a reply whose body is rewritten, and
whose value names the backend host. -/
theorem C16_response_frame_witness :
    (modifyBackendResponse sampleGzip internalProxy brotliReply).2 = none ∧
    brotliReply.Header.find (str "X-Served-By") = some [str "backend.internal"] ∧
    ((modifyBackendResponse sampleGzip internalProxy brotliReply).1.StatusCode =
        brotliReply.StatusCode ∧
     (modifyBackendResponse sampleGzip internalProxy brotliReply).1.Header.find
        (str "X-Served-By") = brotliReply.Header.find (str "X-Served-By")) :=
  ⟨by decide, by decide,
    C16_response_frame sampleGzip internalProxy brotliReply (str "X-Served-By")
      (by decide) (by decide) (by decide) (by decide)⟩

/-- C19: a response with an eligible content type whose first
`Content-Encoding` value is not exactly `gzip`, and whose body reads to its end
as `B`: `modifyBackendResponse` never calls the gzip reader, installs `B` with
the backend host replaced by the public host as the body, and deletes
`Content-Encoding` (and `Content-Length`), without error. -/
theorem C19_other_encoding_not_decoded (gz : Stream → Except Error Stream) (p : proxy)
    (resp : Response) (ct : Str) (more : List Str) (enc : Str) (encs : List Str) (B : Str)
    (hct : resp.Header.find (str "Content-Type") = some (ct :: more))
    (hpre : ∃ m ∈ [str "text/html", str "text/css", str "application/javascript",
      str "application/json"], m <+: ct)
    (henc : resp.Header.find (str "Content-Encoding") = some (enc :: encs))
    (hne : enc ≠ str "gzip")
    (hread : ReadAll resp.Body.reader = (B, none)) :
    (modifyBackendResponse gz p resp).2 = none ∧
    (modifyBackendResponse gz p resp).1.Body =
      newClosingBuffer
        (replaceAll (stripPort p.backendURL.Host) (stripPort resp.Request.Host) B) ∧
    (modifyBackendResponse gz p resp).1.Header.find (str "Content-Encoding") = none ∧
    (modifyBackendResponse gz p resp).1.Header.find (str "Content-Length") = none ∧
    (∀ gz1 : Stream → Except Error Stream,
      modifyBackendResponse gz1 p resp = modifyBackendResponse gz p resp) := by
  have hty : contentTypeOf resp.Header = ct := by
    simp [contentTypeOf, Header.index, hct]
  have hel : hasAnyPrefix (contentTypeOf resp.Header) mimePrefixes = true := by
    rw [hty]
    exact (hasAnyPrefix_iff ct mimePrefixes).mpr hpre
  have hopen : ∀ g : Stream → Except Error Stream,
      contentReaderOf g resp.Header resp.Body = Except.ok resp.Body.reader := by
    intro g
    have hget : resp.Header.Get (str "Content-Encoding") = enc := by
      simp [Header.Get, Header.index, henc]
    unfold contentReaderOf
    rw [hget, if_neg hne]
  rw [modifyBackendResponse_read_ok gz p resp _ B hel (hopen gz) hread]
  refine ⟨rfl, rfl, ?_, ?_, ?_⟩
  · show Header.find (Header.delete (Header.delete _ _) _) _ = none
    rw [find_delete_same]
  · show Header.find (Header.delete (Header.delete _ _) _) _ = none
    rw [find_delete_ne _ _ _ (by decide), find_delete_same]
  · intro gz1
    rw [modifyBackendResponse_read_ok gz1 p resp _ B hel (hopen gz1) hread]

/-- C19 at an HTML reply with `Content-Encoding: br`. -/
theorem C19_other_encoding_not_decoded_witness :
    brotliReply.Header.find (str "Content-Encoding") = some [str "br"] ∧
    str "br" ≠ str "gzip" ∧
    replaceAll (stripPort internalProxy.backendURL.Host) (stripPort brotliReply.Request.Host)
      (str "\x1b\x00 backend.internal \x03") = str "\x1b\x00 public.example.com \x03" ∧
    ((modifyBackendResponse sampleGzip internalProxy brotliReply).2 = none ∧
     (modifyBackendResponse sampleGzip internalProxy brotliReply).1.Body =
      newClosingBuffer
        (replaceAll (stripPort internalProxy.backendURL.Host)
          (stripPort brotliReply.Request.Host) (str "\x1b\x00 backend.internal \x03")) ∧
     (modifyBackendResponse sampleGzip internalProxy brotliReply).1.Header.find
      (str "Content-Encoding") = none ∧
     (modifyBackendResponse sampleGzip internalProxy brotliReply).1.Header.find
      (str "Content-Length") = none ∧
     (∀ gz1 : Stream → Except Error Stream,
      modifyBackendResponse gz1 internalProxy brotliReply =
        modifyBackendResponse sampleGzip internalProxy brotliReply)) :=
  ⟨by decide, by decide, by decide,
    C19_other_encoding_not_decoded sampleGzip internalProxy brotliReply (str "text/html") []
      (str "br") [] (str "\x1b\x00 backend.internal \x03") (by decide)
      ⟨str "text/html", by decide, ⟨[], by decide⟩⟩ (by decide) (by decide) (by decide)⟩

/-- C20: when the bare backend host and the bare public host are both
non-empty and share no byte, the Location and Set-Cookie rewrite is
idempotent: replacing a second time changes no value, and a second run of
`modifyBackendResponse` leaves both fields as the first run left them. -/
theorem C20_rewrite_idempotent_when_disjoint (gz : Stream → Except Error Stream)
    (p : proxy) (resp : Response)
    (hb : stripPort p.backendURL.Host ≠ [])
    (hp : stripPort resp.Request.Host ≠ [])
    (hdis : ∀ x ∈ stripPort p.backendURL.Host, x ∉ stripPort resp.Request.Host) :
    (∀ v : Str,
      Replace (Replace v (stripPort p.backendURL.Host) (stripPort resp.Request.Host) (-1))
        (stripPort p.backendURL.Host) (stripPort resp.Request.Host) (-1) =
      Replace v (stripPort p.backendURL.Host) (stripPort resp.Request.Host) (-1)) ∧
    (modifyBackendResponse gz p (modifyBackendResponse gz p resp).1).1.Header.find
      (str "Location") = (modifyBackendResponse gz p resp).1.Header.find (str "Location") ∧
    (modifyBackendResponse gz p (modifyBackendResponse gz p resp).1).1.Header.find
      (str "Set-Cookie") = (modifyBackendResponse gz p resp).1.Header.find (str "Set-Cookie") := by
  have hidem := replaceAll_idem _ _ hb hp hdis
  have hmap : ∀ o : Option (List Str),
      (o.map (List.map (replaceAll (stripPort p.backendURL.Host)
        (stripPort resp.Request.Host)))).map
        (List.map (replaceAll (stripPort p.backendURL.Host) (stripPort resp.Request.Host))) =
      o.map (List.map (replaceAll (stripPort p.backendURL.Host)
        (stripPort resp.Request.Host))) := by
    intro o
    cases o with
    | none => rfl
    | some vs =>
      simp only [Option.map_some', List.map_map, Option.some.injEq]
      apply List.map_congr_left
      intro v _
      exact hidem v
  have hreq := (modifyBackendResponse_status_request gz p resp).2
  refine ⟨?_, ?_, ?_⟩
  · intro v
    rw [Replace_eq_replaceAll, Replace_eq_replaceAll]
    exact hidem v
  · rw [find_modifyBackendResponse gz p _ _ (by decide) (by decide),
      find_rewrittenHeader_location, hreq,
      find_modifyBackendResponse gz p resp _ (by decide) (by decide),
      find_rewrittenHeader_location]
    exact hmap _
  · rw [find_modifyBackendResponse gz p _ _ (by decide) (by decide),
      find_rewrittenHeader_set_cookie, hreq,
      find_modifyBackendResponse gz p resp _ (by decide) (by decide),
      find_rewrittenHeader_set_cookie]
    exact hmap _

/-- C20 at the redirect from `backend:8080` to a client of `www.shop.io`. -/
theorem C20_rewrite_idempotent_when_disjoint_witness :
    (modifyBackendResponse sampleGzip disjointProxy disjointReply).1.Header.find
      (str "Set-Cookie") =
        some [str "id=1; Domain=www.shop.io", str "t=2; Domain=www.shop.io"] ∧
    ((∀ v : Str,
      Replace (Replace v (stripPort disjointProxy.backendURL.Host)
          (stripPort disjointReply.Request.Host) (-1))
        (stripPort disjointProxy.backendURL.Host) (stripPort disjointReply.Request.Host) (-1) =
      Replace v (stripPort disjointProxy.backendURL.Host)
        (stripPort disjointReply.Request.Host) (-1)) ∧
     (modifyBackendResponse sampleGzip disjointProxy
        (modifyBackendResponse sampleGzip disjointProxy disjointReply).1).1.Header.find
      (str "Location") =
        (modifyBackendResponse sampleGzip disjointProxy disjointReply).1.Header.find
          (str "Location") ∧
     (modifyBackendResponse sampleGzip disjointProxy
        (modifyBackendResponse sampleGzip disjointProxy disjointReply).1).1.Header.find
      (str "Set-Cookie") =
        (modifyBackendResponse sampleGzip disjointProxy disjointReply).1.Header.find
          (str "Set-Cookie")) :=
  ⟨by decide,
    C20_rewrite_idempotent_when_disjoint sampleGzip disjointProxy disjointReply
      (by decide) (by decide) (by decide)⟩

end HostProxy
